import Mathlib

/-!
Verification of the `bccr` package (a data-access client for charts of the
Banco Central de Costa Rica).  The Python sources are shallowly embedded:
strings are `List Char` (or `String` where convenient), Python floats are `ℚ`,
missing values (`NaN`/`None`) are `Option`/dedicated constructors, and code
that can raise returns `Except String`.
-/

namespace BCCR

/-! ## Basic Python modelling: digits, `float()` and `int()` on strings -/

/-- Numeric value of a decimal digit character. -/
def digitVal (c : Char) : Nat := c.toNat - 48

/-- Value of a list of decimal digit characters (most significant first). -/
def natOfDigits (ds : List Char) : Nat := ds.foldl (fun a c => 10 * a + digitVal c) 0

/-- Value of an unsigned decimal literal split as integer part / remainder. -/
def pyFloatSplit (ip rest : List Char) : Option ℚ :=
  match rest with
  | [] => if ip.isEmpty then none else some ((natOfDigits ip : ℚ))
  | '.' :: fp =>
      if fp.all Char.isDigit && !(ip.isEmpty && fp.isEmpty) then
        some ((natOfDigits ip : ℚ) + (natOfDigits fp : ℚ) / 10 ^ fp.length)
      else none
  | _ => none

/-- Magnitude part of Python `float()` on a decimal literal: digits,
optionally followed by a dot and more digits, at least one digit in total.
(Exponents, `inf`/`nan` and underscores are outside the fragment this
repository feeds to `float`.) -/
def pyFloatMag (r : List Char) : Option ℚ :=
  pyFloatSplit (r.takeWhile Char.isDigit) (r.dropWhile Char.isDigit)

/-- Python `float()` on a decimal literal with an optional sign. -/
def pyFloat? : List Char → Option ℚ
  | [] => none
  | c :: r =>
      if c = '-' then (pyFloatMag r).map (fun q => -q)
      else if c = '+' then pyFloatMag r
      else pyFloatMag (c :: r)

/-- Python `int()` on a string: optional sign followed by digits only. -/
def pyInt? : List Char → Option Int
  | [] => none
  | '-' :: ds => if !ds.isEmpty && ds.all Char.isDigit then some (-(natOfDigits ds : Int)) else none
  | '+' :: ds => if !ds.isEmpty && ds.all Char.isDigit then some ((natOfDigits ds : Int)) else none
  | ds => if ds.all Char.isDigit then some ((natOfDigits ds : Int)) else none

/-! ## Cells of a downloaded table

`pd.read_html(..., thousands="")` yields cells that are strings, numbers, or
missing (`NaN`). -/

/-- A cell of a raw downloaded table. -/
inductive Cell where
  | str (s : List Char)
  | num (q : ℚ)
  | nan
  deriving DecidableEq, Repr

/-- Python `x.replace(".", "")` for the one-character pattern: delete every dot. -/
def removeDots (cs : List Char) : List Char := cs.filter (fun c => c ≠ '.')

/-- Python `x.replace(",", ".")` for one-character patterns: map commas to dots. -/
def commasToDots (cs : List Char) : List Char := cs.map (fun c => if c = ',' then '.' else c)

/-- `utils.fixCommas`:
`float(x.replace(".", "").replace(",", ".")) if isinstance(x, str) else x`.
A string on which `float` fails raises `ValueError` (modelled as `.error`);
every non-string cell is returned unchanged. -/
def fixCommas : Cell → Except String Cell
  | .str s =>
      match pyFloat? (commasToDots (removeDots s)) with
      | some q => .ok (.num q)
      | none => .error "ValueError: could not convert string to float"
  | c => .ok c

/-! ## The URL builder (`download.api`) -/

/-- `download.BCCR_URL`. -/
def BCCR_URL : String := "http://indicadoreseconomicos.bccr.fi.cr/indicadoreseconomicos/"

/-- `download.api`, translated append by append.  `first`/`last` are the
optional year arguments (`None` = omitted); Python's
`s += ("..." % first) if first else ""` appends the formatted piece exactly
when `first` is truthy (not `None` and nonzero). -/
def api (chart : Nat) (first last : Option Nat) (excel : Bool) : String :=
  let bccr_web := BCCR_URL ++ "Cuadros/frmVerCatCuadro.aspx?"
  let bccr_web := bccr_web ++ "CodCuadro=" ++ toString chart
  let bccr_web := bccr_web ++ (match first with
    | some f => if f ≠ 0 then "&FecInicial=" ++ toString f ++ "/01/01" else ""
    | none => "")
  let bccr_web := bccr_web ++ (match last with
    | some l => if l ≠ 0 then "&FecFinal=" ++ toString l ++ "/12/31" else ""
    | none => "")
  let bccr_web := bccr_web ++ (if excel then "&Exportar=True&Excel=True" else "")
  bccr_web

/-- Python truthiness of an optional integer argument. -/
def truthyYear : Option Nat → Bool
  | none => false
  | some n => n ≠ 0

/-- The URL shape asserted by the specification: fixed base,
then `CodCuadro=<chart>`, then the `FecInicial`, `FecFinal` and
`Exportar`/`Excel` pieces, each present iff its argument is given (truthy),
in exactly that order. -/
def apiSpec (chart : Nat) (first last : Option Nat) (excel : Bool) : String :=
  "http://indicadoreseconomicos.bccr.fi.cr/indicadoreseconomicos/Cuadros/frmVerCatCuadro.aspx?"
    ++ "CodCuadro=" ++ toString chart
    ++ (if truthyYear first then "&FecInicial=" ++ toString (first.getD 0) ++ "/01/01" else "")
    ++ (if truthyYear last then "&FecFinal=" ++ toString (last.getD 0) ++ "/12/31" else "")
    ++ (if excel then "&Exportar=True&Excel=True" else "")

/-- C3: for every chart number and every combination of the optional
arguments, `api` produces exactly the query string described by the
specification: the fixed base URL, `CodCuadro=<chart>`, then
`&FecInicial=<first>/01/01` iff `first` is given (truthy), then
`&FecFinal=<last>/12/31` iff `last` is given, then
`&Exportar=True&Excel=True` iff `excel`, in that order. -/
theorem api_matches_spec (chart : Nat) (first last : Option Nat) (excel : Bool) :
    api chart first last excel = apiSpec chart first last excel := by
  cases first <;> cases last <;> cases excel <;>
    simp [api, apiSpec, truthyYear, BCCR_URL, String.append_assoc]

/-! ## C4: fixCommas turns locale numerals into numbers -/

lemma takeWhile_digits_append (A b : List Char) (hA : ∀ c ∈ A, Char.isDigit c) :
    (A ++ '.' :: b).takeWhile Char.isDigit = A := by
  induction A with
  | nil => simp [List.takeWhile_cons]
  | cons a A ih =>
      have ha : Char.isDigit a := hA a (by simp)
      simp only [List.cons_append, List.takeWhile_cons, ha]
      simp [ih (fun c hc => hA c (by simp [hc]))]

lemma dropWhile_digits_append (A b : List Char) (hA : ∀ c ∈ A, Char.isDigit c) :
    (A ++ '.' :: b).dropWhile Char.isDigit = '.' :: b := by
  induction A with
  | nil => simp [List.dropWhile_cons]
  | cons a A ih =>
      have ha : Char.isDigit a := hA a (by simp)
      simp only [List.cons_append, List.dropWhile_cons, ha]
      simp [ih (fun c hc => hA c (by simp [hc]))]

lemma list_map_id_of {α : Type} (f : α → α) (l : List α) (h : ∀ c ∈ l, f c = c) :
    l.map f = l := by
  induction l with
  | nil => rfl
  | cons a t ih => simp [h a (by simp), ih (fun c hc => h c (by simp [hc]))]

lemma list_filter_all {α : Type} (p : α → Bool) (l : List α) (h : ∀ c ∈ l, p c = true) :
    l.filter p = l := by
  induction l with
  | nil => rfl
  | cons a t ih =>
      rw [List.filter_cons, if_pos (h a (by simp)), ih (fun c hc => h c (by simp [hc]))]

/-- C4: `fixCommas` on a locale-formatted numeral — an integer part made of
digits and `.` thousands separators (with at least one digit), a decimal
comma, and a fractional part of digits — deletes the dots, turns the comma
into a decimal point, and returns the resulting number; and every non-string
cell is returned unchanged. -/
theorem fixCommas_locale (intpart frac : List Char)
    (h1 : ∀ c ∈ intpart, Char.isDigit c ∨ c = '.')
    (h2 : ∃ c ∈ intpart, Char.isDigit c)
    (h3 : ∀ c ∈ frac, Char.isDigit c) :
    fixCommas (.str (intpart ++ ',' :: frac)) =
      .ok (.num ((natOfDigits (intpart.filter Char.isDigit) : ℚ) +
                 (natOfDigits frac : ℚ) / 10 ^ frac.length))
    ∧ ∀ c : Cell, (∀ s, c ≠ .str s) → fixCommas c = .ok c := by
  constructor
  · -- the digits of the integer part, in order
    set A : List Char := intpart.filter Char.isDigit with hAdef
    have hAdig : ∀ c ∈ A, Char.isDigit c := by
      intro c hc
      exact (List.mem_filter.mp hc).2
    -- step 1: removing dots keeps exactly the digits, and the comma and frac
    have e1 : removeDots (intpart ++ ',' :: frac) = A ++ ',' :: frac := by
      unfold removeDots
      rw [List.filter_append]
      congr 1
      · rw [hAdef]
        apply List.filter_congr
        intro c hc
        rcases h1 c hc with hd | hd
        · have hne : c ≠ '.' := by
            intro h
            rw [h] at hd
            simp [Char.isDigit] at hd
          simp [hne, hd]
        · rw [hd]
          decide
      · apply list_filter_all
        intro c hc
        rcases List.mem_cons.mp hc with h | h
        · rw [h]; decide
        · have := h3 c h
          simp only [decide_eq_true_eq]
          intro he
          rw [he] at this
          simp [Char.isDigit] at this
    -- step 2: the comma becomes a dot, digits are unchanged
    have e2 : commasToDots (A ++ ',' :: frac) = A ++ '.' :: frac := by
      unfold commasToDots
      rw [List.map_append]
      congr 1
      · apply list_map_id_of
        intro c hc
        have := hAdig c hc
        have hne : c ≠ ',' := by
          intro h
          rw [h] at this
          simp [Char.isDigit] at this
        simp [hne]
      · rw [List.map_cons]
        congr 1
        apply list_map_id_of
        intro c hc
        have := h3 c hc
        have hne : c ≠ ',' := by
          intro h
          rw [h] at this
          simp [Char.isDigit] at this
        simp [hne]
    -- A is nonempty and starts with a digit
    obtain ⟨c0, hc0, hc0d⟩ := h2
    have hAne : A ≠ [] := by
      intro h
      have : c0 ∈ A := List.mem_filter.mpr ⟨hc0, hc0d⟩
      rw [h] at this
      simp at this
    obtain ⟨a, A', hAcons⟩ := List.exists_cons_of_ne_nil hAne
    have hadig : Char.isDigit a := by
      apply hAdig
      rw [hAcons]
      simp
    have hand : a ≠ '-' := by
      intro h
      rw [h] at hadig
      simp [Char.isDigit] at hadig
    have hanp : a ≠ '+' := by
      intro h
      rw [h] at hadig
      simp [Char.isDigit] at hadig
    -- now evaluate fixCommas
    show (match pyFloat? (commasToDots (removeDots (intpart ++ ',' :: frac))) with
      | some q => Except.ok (Cell.num q)
      | none => Except.error "ValueError: could not convert string to float") = _
    rw [e1, e2, hAcons]
    show (match pyFloat? (a :: (A' ++ '.' :: frac)) with
      | some q => Except.ok (Cell.num q)
      | none => Except.error "ValueError: could not convert string to float") = _
    have hA'dig : ∀ c ∈ A', Char.isDigit c := by
      intro c hc
      apply hAdig
      rw [hAcons]
      simp [hc]
    have efl : pyFloat? (a :: (A' ++ '.' :: frac)) =
        some ((natOfDigits (a :: A') : ℚ) + (natOfDigits frac : ℚ) / 10 ^ frac.length) := by
      show (if a = '-' then (pyFloatMag (A' ++ '.' :: frac)).map (fun q => -q)
        else if a = '+' then pyFloatMag (A' ++ '.' :: frac)
        else pyFloatMag (a :: (A' ++ '.' :: frac))) = _
      rw [if_neg hand, if_neg hanp]
      unfold pyFloatMag
      have hall : ∀ c ∈ a :: A', Char.isDigit c := by
        intro c hc
        rcases List.mem_cons.mp hc with h | h
        · rw [h]; exact hadig
        · exact hA'dig c h
      have h4 : (a :: (A' ++ '.' :: frac)) = (a :: A') ++ '.' :: frac := by simp
      rw [h4, takeWhile_digits_append _ _ hall, dropWhile_digits_append _ _ hall]
      unfold pyFloatSplit
      have hfall : frac.all Char.isDigit = true := by
        rw [List.all_eq_true]
        intro c hc
        exact h3 c hc
      simp [hfall]
    rw [efl]
  · intro c hc
    cases c with
    | str s => exact absurd rfl (hc s)
    | num q => rfl
    | nan => rfl

/-- C4 witness: the specification's example, `'1.234,56'` parses to `1234.56`. -/
theorem fixCommas_locale_witness :
    fixCommas (.str ("1.234,56".data)) = .ok (.num (1234.56 : ℚ)) := by
  have h := (fixCommas_locale ("1.234".data) ("56".data)
    (by decide) (by decide) (by decide)).1
  have e : "1.234".data ++ ',' :: "56".data = "1.234,56".data := by decide
  rw [e] at h
  have hn1 : natOfDigits (List.filter Char.isDigit "1.234".data) = 1234 := by decide
  have hn2 : natOfDigits "56".data = 56 := by decide
  have hl : "56".data.length = 2 := by decide
  rw [hn1, hn2, hl] at h
  rw [h]
  norm_num

/-! ## C5: `utils.parseQuarterYear`

`parseQuarterYear` extracts the numbers of a string with
`re.findall("[-+]?\d+[\.]?\d*", txt)`, converts them with `int`, optionally
swaps quarter and year, and formats `'%d/%d' % (year, 3*quarter)`. -/

/-- One greedy regex match of `[-+]?\d+[\.]?\d*` with no leading sign:
leading digits, then optionally a dot and more digits.  Returns the matched
token and the rest of the input; `none` when the position does not match. -/
def numCore (cs : List Char) : Option (List Char × List Char) :=
  let ds := cs.takeWhile Char.isDigit
  if ds.isEmpty then none
  else
    match cs.drop ds.length with
    | '.' :: r2 =>
        let fs := r2.takeWhile Char.isDigit
        some (ds ++ '.' :: fs, r2.drop fs.length)
    | r => some (ds, r)

/-- One greedy regex match of `[-+]?\d+[\.]?\d*` at the current position. -/
def matchNumAt : List Char → Option (List Char × List Char)
  | [] => none
  | c :: rest =>
      if c = '-' || c = '+' then (numCore rest).map (fun tr => (c :: tr.1, tr.2))
      else numCore (c :: rest)

/-- Scanner loop of `re.findall`: try to match at each position, consuming
matches left to right.  The fuel argument (the input length) bounds the
recursion; every step consumes at least one character, so it never runs out. -/
def reFindNumbersAux : Nat → List Char → List (List Char)
  | 0, _ => []
  | _ + 1, [] => []
  | n + 1, c :: rest =>
      match matchNumAt (c :: rest) with
      | some (t, r) => t :: reFindNumbersAux n r
      | none => reFindNumbersAux n rest

/-- `re.findall("[-+]?\d+[\.]?\d*", txt)`. -/
def reFindNumbers (cs : List Char) : List (List Char) := reFindNumbersAux cs.length cs

/-- `[int(x) for x in re.findall(...)]`, `None` when some token is not a
valid integer literal (Python would raise `ValueError`). -/
def intsOfText (s : String) : Option (List Int) := (reFindNumbers s.data).mapM pyInt?

/-- `utils.parseQuarterYear`: unpack the two extracted integers as
`q0, year0`, swap them when `q0` is not in `range(1, 5)` but `year0` is,
raise `ValueError` when neither is, and format `'%d/%d' % (year0, 3*q0)`. -/
def parseQuarterYear (txt : String) : Except String String :=
  match intsOfText txt with
  | none => .error "ValueError: invalid literal for int()"
  | some [q0, year0] =>
      if 1 ≤ q0 ∧ q0 ≤ 4 then .ok (toString year0 ++ "/" ++ toString (3 * q0))
      else if 1 ≤ year0 ∧ year0 ≤ 4 then .ok (toString q0 ++ "/" ++ toString (3 * year0))
      else .error "ValueError: Cannot identify the quarter"
  | some _ => .error "ValueError: not exactly two values to unpack"

/-- C5: on a string from which the regex extracts exactly two integer tokens
with values `a` then `b`, `parseQuarterYear` returns `'b/3a'` (year then last
month of the quarter) when `a` is a valid quarter 1..4; returns `'a/3b'`
(roles swapped) when `a` is not a valid quarter but `b` is; and raises
`ValueError` when neither is in 1..4. -/
theorem parseQuarterYear_spec (txt : String) (t1 t2 : List Char) (a b : Int)
    (hf : reFindNumbers txt.data = [t1, t2])
    (h1 : pyInt? t1 = some a) (h2 : pyInt? t2 = some b) :
    ((1 ≤ a ∧ a ≤ 4) →
        parseQuarterYear txt = .ok (toString b ++ "/" ++ toString (3 * a)))
    ∧ (¬(1 ≤ a ∧ a ≤ 4) → (1 ≤ b ∧ b ≤ 4) →
        parseQuarterYear txt = .ok (toString a ++ "/" ++ toString (3 * b)))
    ∧ (¬(1 ≤ a ∧ a ≤ 4) → ¬(1 ≤ b ∧ b ≤ 4) →
        parseQuarterYear txt = .error "ValueError: Cannot identify the quarter") := by
  have hv : intsOfText txt = some [a, b] := by
    unfold intsOfText
    rw [hf]
    simp [List.mapM, List.mapM.loop, h1, h2]
  refine ⟨fun ha => ?_, fun ha hb => ?_, fun ha hb => ?_⟩
  · unfold parseQuarterYear
    rw [hv]
    simp [ha]
  · unfold parseQuarterYear
    rw [hv]
    simp [ha, hb]
  · unfold parseQuarterYear
    rw [hv]
    simp [ha, hb]

/-- C5 witness: the docstring example, `'trimestre 2/2014'` parses to
`'2014/6'` (June is the last month of the second quarter). -/
theorem parseQuarterYear_spec_witness :
    parseQuarterYear "trimestre 2/2014" = .ok "2014/6" := by
  have h := (parseQuarterYear_spec "trimestre 2/2014" "2".data "2014".data 2 2014
    (by decide) (by decide) (by decide)).1 (by decide)
  rw [h]
  congr 1

/-! ## C8: `fastTitle` retries exactly once

`download.fastTitle` (and its twin in `scrape.py`) wraps the downloader in a
single `try/except`: first attempt with `first=last=2015`, on any exception
one retry with the default (unrestricted) dates.  We embed the control flow
in an exception monad that also records the downloader calls made. -/

/-- The argument pair `(first, last)` of one downloader call. -/
abbrev DLCall := Option Nat × Option Nat

/-- A computation that performs downloader calls: it extends the call log and
either returns a value or raises. -/
def TraceM (α : Type) : Type := List DLCall → List DLCall × Except String α

/-- `downloadChart(chart, first, last)` as a traced call of the downloader
oracle `dl` (the oracle says, per argument pair, whether the download
succeeds and with what payload). -/
def downloadChartT {α : Type} (dl : DLCall → Except String α) (first last : Option Nat) :
    TraceM α :=
  fun log => (log ++ [(first, last)], dl (first, last))

/-- Python `try: m except: h`. -/
def tryExceptT {α : Type} (m h : TraceM α) : TraceM α :=
  fun log =>
    match m log with
    | (log₁, .ok a) => (log₁, .ok a)
    | (log₁, .error _) => h log₁

/-- `download.fastTitle`:
`try: downloadChart(chart, 2015, 2015) except: downloadChart(chart)`. -/
def fastTitle {α : Type} (dl : DLCall → Except String α) : TraceM α :=
  tryExceptT (downloadChartT dl (some 2015) (some 2015)) (downloadChartT dl none none)

/-- C8: `fastTitle` first calls the downloader restricted to the single year
2015; if that call succeeds no other call is made and its payload is
returned; if it raises, exactly one further call is made, with the default
(`None`) dates, and its outcome — success or exception — is returned as is,
with no further retry or recovery. -/
theorem fastTitle_retry_once {α : Type} (dl : DLCall → Except String α) :
    (∀ t, dl (some 2015, some 2015) = .ok t →
      fastTitle dl [] = ([(some 2015, some 2015)], .ok t))
    ∧ (∀ e, dl (some 2015, some 2015) = .error e →
      fastTitle dl [] = ([(some 2015, some 2015), (none, none)], dl (none, none))) := by
  constructor
  · intro t ht
    unfold fastTitle tryExceptT downloadChartT
    simp [ht]
  · intro e he
    unfold fastTitle tryExceptT downloadChartT
    simp [he]

/-- C8 witness: a downloader that fails on the restricted call and succeeds
with payload `7` on the default call is retried exactly once. -/
theorem fastTitle_retry_once_witness :
    fastTitle (fun c => if c = ((none : Option Nat), (none : Option Nat)) then
        (.ok 7 : Except String Nat) else .error "HTTPError") [] =
      ([(some 2015, some 2015), (none, none)], .ok 7) := by
  have h := (fastTitle_retry_once (fun c =>
    if c = ((none : Option Nat), (none : Option Nat)) then
      (.ok 7 : Except String Nat) else .error "HTTPError")).2 "HTTPError" (by rfl)
  rw [h]
  rfl

/-! ## C10: `utils.parseSeriesFreqInputs` -/

/-- The accepted shapes of the `series` argument: an `int`, a `pd.Series`
(index ↦ values), a `list` or `tuple` of chart numbers, a `dict` mapping
chart numbers to names; `other` stands for an argument of any other type. -/
inductive SeriesArg where
  | int (n : Int)
  | pdseries (idx : List Int) (vals : List String)
  | list (l : List Int)
  | tuple (l : List Int)
  | dict (d : List (Int × String))
  | other
  deriving DecidableEq, Repr

/-- The accepted shapes of the `func` argument: a callable (identified by a
tag), `None`, or a `dict` of callables; `other` is any other type. -/
inductive FuncArg where
  | callable (f : Nat)
  | nonef
  | dict (d : List (Int × Nat))
  | other
  deriving DecidableEq, Repr

/-- Python dict insertion: overwrite in place if the key exists, else append. -/
def dictInsert {β : Type} (d : List (Int × β)) (k : Int) (v : β) : List (Int × β) :=
  if d.any (fun p => p.1 = k) then d.map (fun p => if p.1 = k then (k, v) else p)
  else d ++ [(k, v)]

/-- Python dict built from a sequence of key/value pairs (later pairs
overwrite earlier ones, first-insertion order is kept). -/
def dictOfPairs {β : Type} (ps : List (Int × β)) : List (Int × β) :=
  ps.foldl (fun d p => dictInsert d p.1 p.2) []

/-- Keys of a Python dict, in insertion order. -/
def dictKeys {β : Type} (d : List (Int × β)) : List Int := d.map Prod.fst

/-- Python dict lookup `d[k]` for a key known to be present, with a default
for the impossible miss. -/
def dictGet {β : Type} (d : List (Int × β)) (k : Int) (dflt : β) : β :=
  match d.find? (fun p => p.1 = k) with
  | some p => p.2
  | none => dflt

/-- `utils.parseSeriesFreqInputs`: normalize `series` into a `{chart: name}`
dict and `func` into a `{chart: callable-or-None}` dict over the same keys;
raise `ValueError` for a `series` or `func` of any other type. -/
def parseSeriesFreqInputs (series : SeriesArg) (func : FuncArg) :
    Except String (List (Int × String) × List (Int × Option Nat)) := do
  let seriesdict : List (Int × String) ←
    match series with
    | .int n => pure [(n, "")]
    | .pdseries idx vals => pure (dictOfPairs (idx.zip vals))
    | .list l => pure (dictOfPairs (l.map (fun c => (c, ""))))
    | .tuple l => pure (dictOfPairs (l.map (fun c => (c, ""))))
    | .dict d => pure d
    | .other => throw "ValueError: series must be integer, list of integers, dictionary, or pd.Series"
  let funcdict : List (Int × Option Nat) ←
    match func with
    | .callable f => pure ((dictKeys seriesdict).map (fun a => (a, some f)))
    | .nonef => pure ((dictKeys seriesdict).map (fun a => (a, (none : Option Nat))))
    | .dict fd => pure ((dictKeys seriesdict).map (fun ch =>
        (ch, if fd.any (fun p => p.1 = ch) then some (dictGet fd ch 0) else none)))
    | .other => throw "ValueError: func must be a callable, None, or a dictionary of callables (chart: callable pairs)"
  pure (seriesdict, funcdict)

/-- First-occurrence deduplication, keeping order. -/
def dedupFirst (l : List Int) : List Int :=
  l.foldl (fun acc k => if acc.any (fun x => x = k) then acc else acc ++ [k]) []

/-- The chart numbers requested by each accepted `series` shape (key set of
the normalized series dict, in Python dict insertion order). -/
def requestedCharts : SeriesArg → List Int
  | .int n => [n]
  | .pdseries idx vals => dedupFirst ((idx.zip vals).map Prod.fst)
  | .list l => dedupFirst l
  | .tuple l => dedupFirst l
  | .dict d => dictKeys d
  | .other => []

/-- Whether the `series` argument has one of the accepted types. -/
def SeriesArg.accepted : SeriesArg → Bool
  | .other => false
  | _ => true

/-- Whether the `func` argument has one of the accepted types. -/
def FuncArg.accepted : FuncArg → Bool
  | .other => false
  | _ => true

lemma keys_any {β : Type} (d : List (Int × β)) (k : Int) :
    (dictKeys d).any (fun x => x = k) = d.any (fun p => p.1 = k) := by
  unfold dictKeys
  induction d with
  | nil => rfl
  | cons p t ih => simp only [List.map_cons, List.any_cons, ih]

lemma dictInsert_keys {β : Type} (d : List (Int × β)) (k : Int) (v : β) :
    dictKeys (dictInsert d k v) =
      if d.any (fun p => p.1 = k) then dictKeys d else dictKeys d ++ [k] := by
  unfold dictInsert dictKeys
  cases h : d.any (fun p => p.1 = k) with
  | true =>
      simp only [h, if_true]
      rw [List.map_map]
      apply List.map_congr_left
      intro p hp
      by_cases he : p.1 = k
      · simp [he]
      · simp [he]
  | false =>
      simp [h]

lemma dictOfPairs_keys {β : Type} (ps : List (Int × β)) :
    dictKeys (dictOfPairs ps) = dedupFirst (ps.map Prod.fst) := by
  unfold dictOfPairs dedupFirst
  suffices h : ∀ d : List (Int × β),
      dictKeys (ps.foldl (fun d p => dictInsert d p.1 p.2) d) =
        (ps.map Prod.fst).foldl
          (fun acc k => if acc.any (fun x => x = k) then acc else acc ++ [k])
          (dictKeys d) by
    exact h []
  induction ps with
  | nil => intro d; rfl
  | cons p ps ih =>
      intro d
      simp only [List.foldl_cons, List.map_cons]
      rw [ih (dictInsert d p.1 p.2), dictInsert_keys, keys_any]

/-- The normalized series dictionary built for each accepted `series` shape. -/
def seriesDictOf : SeriesArg → List (Int × String)
  | .int n => [(n, "")]
  | .pdseries idx vals => dictOfPairs (idx.zip vals)
  | .list l => dictOfPairs (l.map (fun c => (c, "")))
  | .tuple l => dictOfPairs (l.map (fun c => (c, "")))
  | .dict d => d
  | .other => []

/-- The function assigned to each chart for each accepted `func` shape. -/
def funcValOf : FuncArg → Int → Option Nat
  | .callable f, _ => some f
  | .nonef, _ => none
  | .dict fd, ch => if fd.any (fun p => p.1 = ch) then some (dictGet fd ch 0) else none
  | .other, _ => none

lemma parseSeriesFreqInputs_ok (series : SeriesArg) (func : FuncArg)
    (hs : SeriesArg.accepted series = true) (hf : FuncArg.accepted func = true) :
    parseSeriesFreqInputs series func =
      .ok (seriesDictOf series,
           (dictKeys (seriesDictOf series)).map (fun a => (a, funcValOf func a))) := by
  cases series <;> cases func <;>
    first
      | rfl
      | exact absurd hs (by decide)
      | exact absurd hf (by decide)

lemma keys_of_seriesDict (series : SeriesArg) :
    dictKeys (seriesDictOf series) = requestedCharts series := by
  cases series with
  | int n => rfl
  | pdseries idx vals => exact dictOfPairs_keys _
  | list l =>
      show dictKeys (dictOfPairs (l.map (fun c => (c, "")))) = dedupFirst l
      rw [dictOfPairs_keys]
      congr 1
      rw [List.map_map]
      exact list_map_id_of _ _ (fun c hc => rfl)
  | tuple l =>
      show dictKeys (dictOfPairs (l.map (fun c => (c, "")))) = dedupFirst l
      rw [dictOfPairs_keys]
      congr 1
      rw [List.map_map]
      exact list_map_id_of _ _ (fun c hc => rfl)
  | dict d => rfl
  | other => rfl

lemma map_fst_tag (ks : List Int) (f : Int → Option Nat) :
    (ks.map (fun a => (a, f a))).map Prod.fst = ks := by
  rw [List.map_map]
  exact list_map_id_of _ _ (fun c hc => rfl)

/-- C10: for every accepted `series` shape and every accepted `func` shape,
`parseSeriesFreqInputs` returns two dictionaries whose key lists are both
exactly the requested chart numbers; for a `series` or `func` argument of any
other type it raises `ValueError`. -/
theorem parseSeriesFreqInputs_keys (series : SeriesArg) (func : FuncArg) :
    (SeriesArg.accepted series = true → FuncArg.accepted func = true →
      ∃ sd fd, parseSeriesFreqInputs series func = .ok (sd, fd) ∧
        dictKeys sd = requestedCharts series ∧ fd.map Prod.fst = requestedCharts series)
    ∧ (SeriesArg.accepted series = false →
        ∃ e, parseSeriesFreqInputs series func = .error e)
    ∧ (SeriesArg.accepted series = true → FuncArg.accepted func = false →
        ∃ e, parseSeriesFreqInputs series func = .error e) := by
  refine ⟨fun hs hf => ?_, fun hs => ?_, fun hs hf => ?_⟩
  · refine ⟨seriesDictOf series, _, parseSeriesFreqInputs_ok series func hs hf,
      keys_of_seriesDict series, ?_⟩
    rw [map_fst_tag]
    exact keys_of_seriesDict series
  · cases series with
    | other => exact ⟨_, rfl⟩
    | _ => simp [SeriesArg.accepted] at hs
  · cases series with
    | other => simp [SeriesArg.accepted] at hs
    | _ =>
        cases func with
        | other => exact ⟨_, rfl⟩
        | _ => simp [FuncArg.accepted] at hf

/-- C10 witness: a list request (with a duplicate) and `func=None` produce
dictionaries keyed by the requested charts. -/
theorem parseSeriesFreqInputs_keys_witness :
    ∃ sd fd, parseSeriesFreqInputs (.list [9, 125, 9]) .nonef = .ok (sd, fd) ∧
      dictKeys sd = [9, 125] ∧ fd.map Prod.fst = [9, 125] := by
  obtain ⟨sd, fd, hok, h1, h2⟩ :=
    (parseSeriesFreqInputs_keys (.list [9, 125, 9]) .nonef).1 (by decide) (by decide)
  have he : requestedCharts (.list [9, 125, 9]) = [9, 125] := by decide
  rw [he] at h1 h2
  exact ⟨sd, fd, hok, h1, h2⟩

/-! ## C2: `fetch.parse`, `DayYear` format

A `DayYear` chart is a 366-row day-by-year grid (one column per year,
rows = 1 Jan … 31 Dec including a slot for 29 Feb).  `fetch.parse` marks row
59 of every non-leap-year column with `np.inf`, transposes, stacks with
`dropna=False` (year-major order), removes the `inf` cells, and attaches a
daily `period_range` starting 1 January of the first column's year.  We model
the frame as its list of columns, each a year label with its 366 cells. -/

/-- A cell of the cleaned day-by-year frame: a number, `NaN`, or the `np.inf`
sentinel used to mark 29 February of non-leap years. -/
inductive DCell where
  | val (q : ℚ)
  | nan
  | inf
  deriving DecidableEq, Repr

/-- `utils.is_leap_year`: `(y % 4 == 0) & ((y % 100 != 0) | (y % 400 == 0))`. -/
def is_leap_year (y : Nat) : Bool := (y % 4 == 0) && ((y % 100 != 0) || (y % 400 == 0))

/-- `data.iloc[59, nonleap] = np.inf`: in every column whose year is not a
leap year, replace row 59 (29 February, zero-based) by the sentinel. -/
def markFeb29 (frame : List (Nat × List DCell)) : List (Nat × List DCell) :=
  frame.map (fun yc => if is_leap_year yc.1 then yc else (yc.1, yc.2.set 59 DCell.inf))

/-- `data.transpose().stack(dropna=False)`: the cells in year-major order. -/
def stackColumns (frame : List (Nat × List DCell)) : List DCell :=
  (frame.map Prod.snd).flatten

/-- The `DayYear` cleaning steps of `fetch.parse`: mark 29 Feb of non-leap
years, stack year-major, remove the marked cells (`data = data[data != np.inf]`). -/
def parseDayYearStack (frame : List (Nat × List DCell)) : List DCell :=
  (stackColumns (markFeb29 frame)).filter (fun c => c ≠ DCell.inf)

/-- Number of calendar days of year `y` (Gregorian). -/
def daysInYear (y : Nat) : Nat := if is_leap_year y then 366 else 365

/-- Row of the 366-row day-by-year grid that holds day `d` (zero-based) of
year `y`: in a leap year the rows and days coincide; in a non-leap year the
29 Feb slot (row 59) is skipped from 1 March on. -/
def gridRow (y d : Nat) : Nat := if is_leap_year y ∨ d < 59 then d else d + 1

/-- Position, in the daily date range starting 1 January of `year0`, of
1 January of the `n`-th following year. -/
def yearStart (year0 n : Nat) : Nat :=
  ((List.range n).map (fun i => daysInYear (year0 + i))).sum

lemma filter_ne_of_not_mem {α : Type} [DecidableEq α] (l : List α) (a : α) (h : a ∉ l) :
    l.filter (fun c => c ≠ a) = l := by
  apply list_filter_all
  intro c hc
  simp only [decide_eq_true_eq]
  intro he
  rw [he] at hc
  exact h hc

/-- The per-column effect of mark-then-filter: a leap-year column is kept
whole, a non-leap-year column loses exactly its row 59. -/
def dropFeb29 (y : Nat) (col : List DCell) : List DCell :=
  if is_leap_year y then col else col.take 59 ++ col.drop 60

lemma mark_filter_col (y : Nat) (col : List DCell)
    (hlen : col.length = 366) (hinf : DCell.inf ∉ col) :
    ((if is_leap_year y then (y, col) else (y, col.set 59 DCell.inf)).2.filter
        (fun c => c ≠ DCell.inf)) = dropFeb29 y col := by
  unfold dropFeb29
  by_cases hy : is_leap_year y = true
  · rw [if_pos hy, if_pos hy]
    exact filter_ne_of_not_mem col DCell.inf hinf
  · rw [if_neg hy, if_neg hy]
    show (col.set 59 DCell.inf).filter (fun c => c ≠ DCell.inf) = _
    have h59 : 59 < col.length := by omega
    rw [List.set_eq_take_cons_drop _ h59]
    rw [List.filter_append]
    rw [filter_ne_of_not_mem _ _ (fun h => hinf (List.mem_of_mem_take h))]
    have : (DCell.inf :: col.drop 60).filter (fun c => c ≠ DCell.inf) =
        (col.drop 60).filter (fun c => c ≠ DCell.inf) := by
      rw [List.filter_cons]
      simp
    rw [this, filter_ne_of_not_mem _ _ (fun h => hinf (List.mem_of_mem_drop h))]

lemma dropFeb29_length (y : Nat) (col : List DCell) (hlen : col.length = 366) :
    (dropFeb29 y col).length = daysInYear y := by
  unfold dropFeb29 daysInYear
  by_cases hy : is_leap_year y = true
  · simp [hy, hlen]
  · simp [hy, hlen]

lemma dropFeb29_getElem (y : Nat) (col : List DCell) (hlen : col.length = 366)
    (d : Nat) (hd : d < daysInYear y) :
    (dropFeb29 y col)[d]? = col[gridRow y d]? := by
  unfold dropFeb29 gridRow
  by_cases hy : is_leap_year y = true
  · simp [hy]
  · simp only [hy, if_false, Bool.false_eq_true, false_or]
    have hdy : d < 365 := by
      unfold daysInYear at hd
      simp [hy] at hd
      omega
    by_cases hlt : d < 59
    · rw [if_pos hlt]
      rw [List.getElem?_append_left (by simp [hlen]; omega)]
      exact List.getElem?_take_of_lt hlt
    · rw [if_neg hlt]
      rw [List.getElem?_append_right (by simp [hlen]; omega)]
      rw [List.getElem?_drop]
      congr 1
      simp [hlen]
      omega

lemma flatten_getElem_block {α : Type} :
    ∀ (L : List (List α)) (j d : Nat), j < L.length → d < (L.getD j []).length →
      L.flatten[(((L.take j).map List.length).sum + d)]? = (L.getD j [])[d]?
  | [], j, d, hj, _ => by simp at hj
  | l :: L, 0, d, hj, hd => by
      simp only [List.getD_cons_zero] at hd ⊢
      simp only [List.take_zero, List.map_nil, List.sum_nil, Nat.zero_add]
      rw [List.flatten_cons]
      exact List.getElem?_append_left hd
  | l :: L, j + 1, d, hj, hd => by
      simp only [List.getD_cons_succ] at hd ⊢
      rw [List.flatten_cons]
      have hs : l.length ≤ l.length + (((L.take j).map List.length).sum + d) := by omega
      have e : ((List.take (j + 1) (l :: L)).map List.length).sum + d =
          l.length + (((L.take j).map List.length).sum + d) := by
        simp [List.take_succ_cons]
        omega
      rw [e, List.getElem?_append_right hs]
      have : l.length + (((L.take j).map List.length).sum + d) - l.length =
          ((L.take j).map List.length).sum + d := by omega
      rw [this]
      exact flatten_getElem_block L j d (by simpa using hj) hd

lemma filter_flatten_eq {α : Type} (p : α → Bool) :
    ∀ L : List (List α), L.flatten.filter p = (L.map (fun l => l.filter p)).flatten
  | [] => rfl
  | l :: L => by
      rw [List.flatten_cons, List.filter_append, List.map_cons, List.flatten_cons,
        filter_flatten_eq p L]

/-- The cleaned stack is the concatenation, year by year, of each column with
29 Feb dropped from non-leap years. -/
lemma parseDayYearStack_eq (frame : List (Nat × List DCell))
    (hlen : ∀ p ∈ frame, p.2.length = 366) (hinf : ∀ p ∈ frame, DCell.inf ∉ p.2) :
    parseDayYearStack frame = (frame.map (fun yc => dropFeb29 yc.1 yc.2)).flatten := by
  unfold parseDayYearStack stackColumns markFeb29
  rw [filter_flatten_eq]
  congr 1
  rw [List.map_map, List.map_map]
  apply List.map_congr_left
  intro p hp
  exact mark_filter_col p.1 p.2 (hlen p hp) (hinf p hp)

/-- C2: for a `DayYear` frame whose columns are the consecutive years
`year0, year0+1, …` with 366 rows each (and whose data contains no genuine
`inf`), the cleaning phase of `fetch.parse` satisfies the specification:
(a) a year is a leap year exactly when it is divisible by 4 and either not
divisible by 100 or divisible by 400; (b) the stacked series has exactly one
value per calendar day — its length is the total day count of the years
spanned, each year contributing `daysInYear` values; and (c) it aligns
day-for-day with the daily range starting 1 January of `year0`: the entry at
position `yearStart year0 j + d` (day `d` of year `year0+j`) is the source
cell of column `j` at the grid row holding that calendar day. -/
theorem parse_dayYear_feb29 (year0 : Nat) (frame : List (Nat × List DCell))
    (hyr : frame.map Prod.fst = List.range' year0 frame.length)
    (hlen : ∀ p ∈ frame, p.2.length = 366)
    (hinf : ∀ p ∈ frame, DCell.inf ∉ p.2) :
    (∀ y : Nat, is_leap_year y = true ↔ (4 ∣ y ∧ (¬ (100 ∣ y) ∨ 400 ∣ y)))
    ∧ (parseDayYearStack frame).length = yearStart year0 frame.length
    ∧ ∀ j d, j < frame.length → d < daysInYear (year0 + j) →
        (parseDayYearStack frame)[(yearStart year0 j + d)]? =
          (frame.getD j (0, [])).2[gridRow (year0 + j) d]? := by
  have hyear : ∀ j, j < frame.length → (frame.getD j (0, [])).1 = year0 + j := by
    intro j hj
    have h1 : (frame.map Prod.fst)[j]? = (List.range' year0 frame.length)[j]? := by
      rw [hyr]
    rw [List.getElem?_map] at h1
    rw [List.getElem?_range' year0 1 hj] at h1
    have h2 : frame[j]? = some (frame.getD j (0, [])) := by
      rw [List.getD_eq_getElem?_getD]
      cases h : frame[j]? with
      | none =>
          rw [List.getElem?_eq_none_iff] at h
          omega
      | some p => rfl
    rw [h2] at h1
    simp only [Option.map_some'] at h1
    have := Option.some.inj h1
    rw [this]
    omega
  have hmem : ∀ j, j < frame.length → frame.getD j (0, []) ∈ frame := by
    intro j hj
    rw [List.getD_eq_getElem?_getD]
    cases h : frame[j]? with
    | none =>
        rw [List.getElem?_eq_none_iff] at h
        omega
    | some p =>
        simpa using List.getElem?_mem h
  refine ⟨?_, ?_, ?_⟩
  · intro y
    unfold is_leap_year
    rw [Nat.dvd_iff_mod_eq_zero, Nat.dvd_iff_mod_eq_zero, Nat.dvd_iff_mod_eq_zero]
    simp [Bool.and_eq_true, Bool.or_eq_true]
  · rw [parseDayYearStack_eq frame hlen hinf]
    rw [List.length_flatten]
    unfold yearStart
    rw [List.map_map]
    apply congrArg
    apply List.ext_getElem?
    intro j
    rw [List.getElem?_map, List.getElem?_map]
    by_cases hj : j < frame.length
    · rw [List.getElem?_range (by simpa using hj)]
      have h2 : frame[j]? = some (frame.getD j (0, [])) := by
        rw [List.getD_eq_getElem?_getD]
        cases h : frame[j]? with
        | none =>
            rw [List.getElem?_eq_none_iff] at h
            omega
        | some p => rfl
      rw [h2]
      simp only [Option.map_some', Function.comp]
      congr 1
      rw [dropFeb29_length _ _ (hlen _ (hmem j hj)), hyear j hj]
    · have e1 : frame[j]? = none := by
        rw [List.getElem?_eq_none_iff]
        omega
      have e2 : (List.range frame.length)[j]? = none := by
        rw [List.getElem?_eq_none_iff]
        simpa using hj
      rw [e1, e2]
      rfl
  · intro j d hj hd
    rw [parseDayYearStack_eq frame hlen hinf]
    have hlen2 : ∀ i, i < frame.length →
        ((frame.map (fun yc => dropFeb29 yc.1 yc.2)).getD i []).length =
          daysInYear (year0 + i) := by
      intro i hi
      have h2 : frame[i]? = some (frame.getD i (0, [])) := by
        rw [List.getD_eq_getElem?_getD]
        cases h : frame[i]? with
        | none =>
            rw [List.getElem?_eq_none_iff] at h
            omega
        | some p => rfl
      rw [List.getD_eq_getElem?_getD, List.getElem?_map, h2]
      simp only [Option.map_some', Option.getD_some]
      rw [dropFeb29_length _ _ (hlen _ (hmem i hi)), hyear i hi]
    have hoff : ((( frame.map (fun yc => dropFeb29 yc.1 yc.2)).take j).map List.length).sum =
        yearStart year0 j := by
      unfold yearStart
      rw [← List.map_take, List.map_map]
      apply congrArg
      apply List.ext_getElem?
      intro i
      rw [List.getElem?_map, List.getElem?_map]
      by_cases hi : i < j
      · have hif : i < frame.length := by omega
        rw [List.getElem?_take_of_lt hi]
        rw [List.getElem?_range (by simpa using hi)]
        have h2 : frame[i]? = some (frame.getD i (0, [])) := by
          rw [List.getD_eq_getElem?_getD]
          cases h : frame[i]? with
          | none =>
              rw [List.getElem?_eq_none_iff] at h
              omega
          | some p => rfl
        rw [h2]
        simp only [Option.map_some', Function.comp]
        congr 1
        rw [dropFeb29_length _ _ (hlen _ (hmem i hif)), hyear i hif]
      · have e1 : (List.take j frame)[i]? = none := by
          rw [List.getElem?_eq_none_iff]
          simp
          omega
        have e2 : (List.range j)[i]? = none := by
          rw [List.getElem?_eq_none_iff]
          simpa using hi
        rw [e1, e2]
        rfl
    rw [← hoff]
    have hjm : j < (frame.map (fun yc => dropFeb29 yc.1 yc.2)).length := by simpa using hj
    have hdm : d < ((frame.map (fun yc => dropFeb29 yc.1 yc.2)).getD j []).length := by
      rw [hlen2 j hj]
      exact hd
    rw [flatten_getElem_block _ j d hjm hdm]
    have h2 : frame[j]? = some (frame.getD j (0, [])) := by
      rw [List.getD_eq_getElem?_getD]
      cases h : frame[j]? with
      | none =>
          rw [List.getElem?_eq_none_iff] at h
          omega
      | some p => rfl
    rw [List.getD_eq_getElem?_getD, List.getElem?_map, h2]
    simp only [Option.map_some', Option.getD_some]
    rw [hyear j hj]
    exact dropFeb29_getElem _ _ (hlen _ (hmem j hj)) d hd

set_option maxRecDepth 10000 in
/-- C2 witness: a frame spanning 2015 (non-leap) and 2016 (leap).  The
cleaned stack has 365 + 366 entries, and 1 March 2015 (day 59 of year 0) is
read from grid row 60 of the 2015 column, skipping the marked 29 Feb slot. -/
theorem parse_dayYear_feb29_witness :
    (parseDayYearStack
        [(2015, List.replicate 366 (DCell.val 1)), (2016, List.replicate 366 DCell.nan)]).length
        = 731
    ∧ (parseDayYearStack
        [(2015, List.replicate 366 (DCell.val 1)), (2016, List.replicate 366 DCell.nan)])[59]? =
        (List.replicate 366 (DCell.val 1))[60]? := by
  have h := parse_dayYear_feb29 2015
    [(2015, List.replicate 366 (DCell.val 1)), (2016, List.replicate 366 DCell.nan)]
    (by decide)
    (by decide)
    (by decide)
  constructor
  · have h1 := h.2.1
    rw [h1]
    decide
  · have h2 := h.2.2 0 59 (by decide) (by decide)
    have e1 : yearStart 2015 0 + 59 = 59 := by decide
    rw [e1] at h2
    have e2 : gridRow (2015 + 0) 59 = 60 := by decide
    rw [e2] at h2
    exact h2

/-! ## The web-service client (`gee.ServicioWeb`): C6, C7, C9

`ServicioWeb.datos` downloads one series per requested indicator with
`__descargar__`, drops failed downloads, resamples every series to its own
native frequency, optionally fills gaps, and — when several native
frequencies are present (or a target frequency was given) — converts every
series whose frequency differs from the common one before assembling the
DataFrame.  Series are modelled symbolically (`SExpr`) so that the data flow
of the orchestration is visible in the result. -/

/-- The six data frequencies, in the order of the ordered categorical
`['A', '6M', 'Q', 'M', 'W', 'D']` used by `gee.py` (coarsest first). -/
inductive Freq where
  | A | S6 | Q | M | W | D
  deriving DecidableEq, Repr

/-- Position of a frequency in the ordered category list
`['A', '6M', 'Q', 'M', 'W', 'D']`: annual < semiannual < quarterly <
monthly < weekly < daily. -/
def Freq.rank : Freq → Nat
  | .A => 0
  | .S6 => 1
  | .Q => 2
  | .M => 3
  | .W => 4
  | .D => 5

/-- `pd.Series(freqs).astype('category')....min()`: the category of least
rank that occurs in the list (the coarsest frequency present). -/
def freqMin : List Freq → Freq
  | [] => .D
  | f :: rest => rest.foldl (fun a b => if b.rank < a.rank then b else a) f

/-- One observation extracted by `__observacion__`: indicator code, date, and
value (`NaN` when the XML node carries no `NUM_VALOR`). -/
structure Obs where
  codigo : String
  fecha : String
  valor : Option ℚ
  deriving DecidableEq, Repr

/-- The relevant parts of an HTTP response of the web service: status code,
reason phrase, and the observation records of the XML body. -/
structure Resp where
  status : Nat
  reason : String
  observations : List Obs
  deriving DecidableEq, Repr

/-- The error message printed by `__descargar__`. -/
def descargar_msg (ind reason : String) : String :=
  "\nNo se obtuvieron datos de indicador " ++ ind ++ ". Servidor respondio con mensaje "
    ++ reason
    ++ "\nRevise que este indicador efectivamente existe, o intente de nuevo la obtención de los datos."

/-- `ServicioWeb.__descargar__`, modelled on a pre-fetched response: on a 200
status with a nonempty observation list it returns the date-indexed value
series; otherwise it prints the error message and returns `None`.  The result
is the pair (returned value, lines printed); the function is total — it never
raises. -/
def descargar (ind : String) (resp : Resp) :
    Option (List (String × Option ℚ)) × List String :=
  if resp.status = 200 then
    if resp.observations.isEmpty then (none, [descargar_msg ind resp.reason])
    else (some (resp.observations.map (fun o => (o.fecha, o.valor))), [])
  else (none, [descargar_msg ind resp.reason])

/-- A symbolic series expression: the raw downloaded series of an indicator,
a `resample(f).mean()` / `resample(f).apply(func)` around it, or a
`fillna(method=m)`. -/
inductive SExpr where
  | raw (nombre : String)
  | resample (s : SExpr) (f : Freq) (agg : String)
  | fill (s : SExpr) (method : String)
  deriving DecidableEq, Repr

/-- The resulting DataFrame of `datos`: either the empty frame
`pd.DataFrame(columns=...)` or a table of named series. -/
inductive DFrame where
  | empty (columns : List String)
  | table (cols : List (String × SExpr))
  deriving DecidableEq, Repr

/-- The column labels of the resulting DataFrame. -/
def DFrame.columnNames : DFrame → List String
  | .empty cs => cs
  | .table cols => cols.map Prod.fst

/-- `freqs[nombre]`: lookup in the name ↦ frequency dict. -/
def lookupFreq (freqs : List (String × Freq)) (n : String) : Freq :=
  match freqs.find? (fun p => p.1 = n) with
  | some p => p.2
  | none => .D

/-- `serie.resample(freqs[nombre]).mean()`. -/
def meanExpr (n : String) (f : Freq) : SExpr := .resample (.raw n) f "mean"

/-- The optional `fillna` step: applied only for a valid lowercased method. -/
def fillWrap (fillna : Option String) (e : SExpr) : SExpr :=
  match fillna with
  | some m =>
      if ["backfill", "bfill", "pad", "ffill"].contains m.toLower then .fill e m.toLower
      else e
  | none => e

/-- `datos = {n: s for (n, s) in datos.items() if s is not None}` — the
requested entries whose download succeeded, in request order. -/
def keptOf (indicadores : List (String × String)) (dl : String → Option Unit) :
    List (String × String) :=
  indicadores.filter (fun nc => (dl nc.2).isSome)

/-- `freqs = {n: __frecuencia__(c, datos[n]) for (n, c) in indicadores if n in datos}`. -/
def freqsOf (kept : List (String × String)) (frec : String → Freq) :
    List (String × Freq) :=
  kept.map (fun nc => (nc.1, frec nc.2))

/-- The series-building phase of `datos` on the successfully downloaded
entries: resample each series to its native frequency (`.mean()`), apply the
optional `fillna`, then — when several native frequencies are present or a
target frequency was given — resample every series whose frequency differs
from the target (the given one, else the coarsest present) with `.apply`. -/
def harmonized (kept : List (String × String)) (frec : String → Freq)
    (freqArg : Option Freq) (fillna : Option String) : List (String × SExpr) :=
  let freqs := freqsOf kept frec
  let nfreqs := (freqs.map Prod.snd).dedup.length
  -- datos = {n: s.resample(freqs[n]).mean() for ...}
  let datos1 : List (String × SExpr) :=
    kept.map (fun nc => (nc.1, meanExpr nc.1 (lookupFreq freqs nc.1)))
  -- optional fillna
  let datos2 : List (String × SExpr) :=
    match fillna with
    | some _ => datos1.map (fun ne => (ne.1, fillWrap fillna ne.2))
    | none => datos1
  -- if nfreqs > 1 or freq: freq = freq if freq else freqs2.min(); resample the others
  if nfreqs > 1 ∨ freqArg.isSome then
    let freq := freqArg.getD (freqMin (freqs.map Prod.snd))
    datos2.map (fun ne =>
      if lookupFreq freqs ne.1 ≠ freq then (ne.1, .resample ne.2 freq "apply") else ne)
  else datos2

/-- The orchestration core of `ServicioWeb.datos` after the argument
preprocessing: `indicadores` is the requested name ↦ code dict, `dl` says
which codes download successfully (`__descargar__` returning a series or
`None`), `frec` is `__frecuencia__` (native frequency per code), `freqArg`
the optional target frequency, `fillna` the optional fill method.  Mirrors
gee.py lines 687–747; the `func` resolution only selects the aggregator
passed to `.apply` and is abstracted into the `"apply"` tag. -/
def datosCore (indicadores : List (String × String)) (dl : String → Option Unit)
    (frec : String → Freq) (freqArg : Option Freq) (fillna : Option String) : DFrame :=
  if (keptOf indicadores dl).isEmpty then .empty (indicadores.map Prod.fst)
  else .table (harmonized (keptOf indicadores dl) frec freqArg fillna)

/-- `utils.FREQS`: `pd.Series(range(4), index=['A','Q','M','D'])`, lower to
higher frequencies. -/
def FREQS : List (Char × Nat) := [('A', 0), ('Q', 1), ('M', 2), ('D', 3)]

/-- Value of a frequency letter in `FREQS` (unknown letters get a sentinel). -/
def freqVal (c : Char) : Nat :=
  match FREQS.find? (fun p => p.1 = c) with
  | some p => p.2
  | none => 99

/-- `f[0].upper() for f in freqs`: the upper-cased first letter of every
frequency word (`None` when some word is empty — Python raises `IndexError`). -/
def firstLetters (words : List String) : Option (List Char) :=
  words.mapM (fun w => w.data.head?.map Char.toUpper)

/-- `utils.lowestFrequency`: take the upper-cased first letter of every
frequency word, select those labels in `FREQS` (a missing label raises
`KeyError`, an empty word raises `IndexError`), and return the label of the
minimal value (`argmin`, i.e. `idxmin`, of the selected sub-series; `FREQS`
is listed in increasing value order, so the first present label is that
argmin). -/
def lowestFrequency (freqs : List String) : Except String Char :=
  match firstLetters freqs with
  | none => .error "IndexError: string index out of range"
  | some firsts =>
      let cands := firsts.dedup
      if cands.all (fun c => FREQS.any (fun p => p.1 = c)) then
        match FREQS.find? (fun p => cands.contains p.1) with
        | some p => .ok p.1
        | none => .error "KeyError"
      else .error "KeyError"

lemma freqMin_foldl_le (rest : List Freq) :
    ∀ a : Freq,
      (rest.foldl (fun a b => if b.rank < a.rank then b else a) a).rank ≤ a.rank
      ∧ ∀ f ∈ rest, (rest.foldl (fun a b => if b.rank < a.rank then b else a) a).rank ≤ f.rank := by
  induction rest with
  | nil => intro a; exact ⟨Nat.le_refl _, by simp⟩
  | cons b rest ih =>
      intro a
      rw [List.foldl_cons]
      by_cases hb : b.rank < a.rank
      · rw [if_pos hb]
        refine ⟨Nat.le_trans (ih b).1 (Nat.le_of_lt hb), ?_⟩
        intro f hf
        rcases List.mem_cons.mp hf with h | h
        · rw [h]; exact (ih b).1
        · exact (ih b).2 f h
      · rw [if_neg hb]
        refine ⟨(ih a).1, ?_⟩
        intro f hf
        rcases List.mem_cons.mp hf with h | h
        · rw [h]
          exact Nat.le_trans (ih a).1 (Nat.le_of_not_lt hb)
        · exact (ih a).2 f h

lemma freqMin_foldl_mem (rest : List Freq) :
    ∀ a : Freq, rest.foldl (fun a b => if b.rank < a.rank then b else a) a = a
      ∨ rest.foldl (fun a b => if b.rank < a.rank then b else a) a ∈ rest := by
  induction rest with
  | nil => intro a; exact Or.inl rfl
  | cons b rest ih =>
      intro a
      rw [List.foldl_cons]
      by_cases hb : b.rank < a.rank
      · rw [if_pos hb]
        rcases ih b with h | h
        · exact Or.inr (by rw [h]; simp)
        · exact Or.inr (List.mem_cons_of_mem b h)
      · rw [if_neg hb]
        rcases ih a with h | h
        · exact Or.inl h
        · exact Or.inr (List.mem_cons_of_mem b h)

/-- `freqMin` returns the coarsest frequency in the list. -/
lemma freqMin_le (fs : List Freq) (f : Freq) (hf : f ∈ fs) :
    (freqMin fs).rank ≤ f.rank := by
  cases fs with
  | nil => simp at hf
  | cons a rest =>
      unfold freqMin
      rcases List.mem_cons.mp hf with h | h
      · rw [h]; exact (freqMin_foldl_le rest a).1
      · exact (freqMin_foldl_le rest a).2 f h

/-- `freqMin` of a nonempty list is one of its elements. -/
lemma freqMin_mem (fs : List Freq) (hne : fs ≠ []) : freqMin fs ∈ fs := by
  cases fs with
  | nil => exact absurd rfl hne
  | cons a rest =>
      have he : freqMin (a :: rest) =
          rest.foldl (fun a b => if b.rank < a.rank then b else a) a := rfl
      rw [he]
      rcases freqMin_foldl_mem rest a with h | h
      · rw [h]; simp
      · exact List.mem_cons_of_mem a h

lemma eq_of_mem_nodup_keys {β : Type} :
    ∀ (l : List (String × β)), (l.map Prod.fst).Nodup →
      ∀ p q : String × β, p ∈ l → q ∈ l → p.1 = q.1 → p = q
  | [], _, p, q, hp, _, _ => by simp at hp
  | x :: l, hn, p, q, hp, hq, he => by
      rw [List.map_cons, List.nodup_cons] at hn
      rcases List.mem_cons.mp hp with h1 | h1 <;> rcases List.mem_cons.mp hq with h2 | h2
      · rw [h1, h2]
      · exfalso
        apply hn.1
        rw [← h1, he]
        exact List.mem_map.mpr ⟨q, h2, rfl⟩
      · exfalso
        apply hn.1
        rw [← h2, ← he]
        exact List.mem_map.mpr ⟨p, h1, rfl⟩
      · exact eq_of_mem_nodup_keys l hn.2 p q h1 h2 he

/-- Looking up the frequency dict built over `kept` recovers each entry's own
native frequency (names are dict keys, hence distinct). -/
lemma lookupFreq_eq (kept : List (String × String)) (frec : String → Freq)
    (hn : (kept.map Prod.fst).Nodup) (nc : String × String) (h : nc ∈ kept) :
    lookupFreq (kept.map (fun x => (x.1, frec x.2))) nc.1 = frec nc.2 := by
  unfold lookupFreq
  have hfind : (kept.map (fun x => (x.1, frec x.2))).find? (fun p => p.1 = nc.1)
      = some (nc.1, frec nc.2) := by
    rw [List.find?_map]
    have hcc : ((fun p => decide (p.1 = nc.1)) ∘ (fun x : String × String => (x.1, frec x.2)))
        = (fun x : String × String => decide (x.1 = nc.1)) := rfl
    rw [hcc]
    cases hf : kept.find? (fun x => decide (x.1 = nc.1)) with
    | none =>
        exfalso
        have := List.find?_eq_none.mp hf nc h
        simp at this
    | some x =>
        have hxm := List.mem_of_find?_eq_some hf
        have hxp := List.find?_some hf
        simp only [decide_eq_true_eq] at hxp
        have hxe : x = nc := eq_of_mem_nodup_keys kept hn x nc hxm h hxp
        rw [hxe]
        rfl
  rw [hfind]

/-- The native frequencies of the successfully downloaded indicators, in
request order. -/
def nativeFreqs (indicadores : List (String × String)) (dl : String → Option Unit)
    (frec : String → Freq) : List Freq :=
  (freqsOf (keptOf indicadores dl) frec).map Prod.snd

/-- The harmonization phase does not change the column names. -/
lemma harmonized_fst (kept : List (String × String)) (frec : String → Freq)
    (freqArg : Option Freq) (fillna : Option String) :
    (harmonized kept frec freqArg fillna).map Prod.fst = kept.map Prod.fst := by
  unfold harmonized
  have h1 : ∀ l : List (String × SExpr),
      (l.map (fun ne =>
        if lookupFreq (freqsOf kept frec) ne.1 ≠
            (freqArg.getD (freqMin ((freqsOf kept frec).map Prod.snd)))
        then (ne.1, SExpr.resample ne.2
            (freqArg.getD (freqMin ((freqsOf kept frec).map Prod.snd))) "apply")
        else ne)).map Prod.fst = l.map Prod.fst := by
    intro l
    rw [List.map_map]
    apply List.map_congr_left
    intro ne hne
    by_cases h : lookupFreq (freqsOf kept frec) ne.1 =
        freqArg.getD (freqMin ((freqsOf kept frec).map Prod.snd))
    · simp [h]
    · simp [h]
  have h2 : ∀ fill2 : Option String,
      ((match fill2 with
        | some _ => (kept.map (fun nc =>
            (nc.1, meanExpr nc.1 (lookupFreq (freqsOf kept frec) nc.1)))).map
              (fun ne => (ne.1, fillWrap fillna ne.2))
        | none => kept.map (fun nc =>
            (nc.1, meanExpr nc.1 (lookupFreq (freqsOf kept frec) nc.1)))) :
          List (String × SExpr)).map Prod.fst = kept.map Prod.fst := by
    intro fill2
    cases fill2 with
    | none => rw [List.map_map]; rfl
    | some m => rw [List.map_map, List.map_map]; rfl
  by_cases hb : ((freqsOf kept frec).map Prod.snd).dedup.length > 1 ∨ freqArg.isSome
  · simp only [if_pos hb]
    rw [h1, h2 fillna]
  · simp only [if_neg hb]
    exact h2 fillna

/-- When at least one download succeeded, `datos` returns the table of the
harmonized kept series. -/
lemma datosCore_table (indicadores : List (String × String)) (dl : String → Option Unit)
    (frec : String → Freq) (freqArg : Option Freq) (fillna : Option String)
    (hk : keptOf indicadores dl ≠ []) :
    datosCore indicadores dl frec freqArg fillna =
      .table (harmonized (keptOf indicadores dl) frec freqArg fillna) := by
  unfold datosCore
  rw [if_neg]
  rw [List.isEmpty_iff]
  exact hk

/-! ### C9: all downloads fail -/

/-- C9: when every requested indicator fails to download (`__descargar__`
returns `None` for each), `datos` returns the empty DataFrame whose columns
are exactly the requested indicator names, and raises no exception (the
model is a total function). -/
theorem datos_all_failed (indicadores : List (String × String)) (dl : String → Option Unit)
    (frec : String → Freq) (freqArg : Option Freq) (fillna : Option String)
    (hall : ∀ nc ∈ indicadores, dl nc.2 = none) :
    datosCore indicadores dl frec freqArg fillna = .empty (indicadores.map Prod.fst) := by
  unfold datosCore
  have hk : keptOf indicadores dl = [] := by
    unfold keptOf
    rw [List.filter_eq_nil_iff]
    intro nc hnc
    rw [hall nc hnc]
    simp
  rw [hk]
  rfl

/-- C9 witness: two indicators, both downloads fail; the result is the empty
frame with the two requested names as columns. -/
theorem datos_all_failed_witness :
    datosCore [("PIB", "33439"), ("TPM", "3541")] (fun _ => none) (fun _ => Freq.M)
      none none = .empty ["PIB", "TPM"] := by
  have h := datos_all_failed [("PIB", "33439"), ("TPM", "3541")] (fun _ => none)
    (fun _ => Freq.M) none none (by intro nc hnc; rfl)
  rw [h]
  rfl

/-! ### C6: frequency harmonization -/

/-- `find?` on a list whose values appear in nondecreasing order returns an
entry of minimal value among those satisfying the predicate. -/
lemma find?_first_le (l : List (Char × Nat))
    (hs : l.Pairwise (fun p q => p.2 ≤ q.2)) (P : (Char × Nat) → Bool)
    (pr : Char × Nat) (hf : l.find? P = some pr) :
    ∀ q ∈ l, P q = true → pr.2 ≤ q.2 := by
  induction l with
  | nil => simp at hf
  | cons x t ih =>
      rw [List.pairwise_cons] at hs
      rw [List.find?_cons] at hf
      cases hx : P x with
      | true =>
          rw [hx] at hf
          have hpx : pr = x := by
            cases hf
            rfl
          intro q hq _
          rcases List.mem_cons.mp hq with h | h
          · rw [hpx, h]
          · rw [hpx]
            exact hs.1 q h
      | false =>
          rw [hx] at hf
          intro q hq hPq
          rcases List.mem_cons.mp hq with h | h
          · rw [h] at hPq
            rw [hPq] at hx
            cases hx
          · exact ih hs.2 hf q h hPq

/-- `lowestFrequency` returns the coarsest frequency label among the
first letters of its inputs, under `FREQS`'s ordering A < Q < M < D. -/
lemma lowestFrequency_min (words : List String) (ch : Char)
    (hok : lowestFrequency words = .ok ch) :
    ∃ firsts, firstLetters words = some firsts ∧ ch ∈ firsts ∧
      ∀ d ∈ firsts, freqVal ch ≤ freqVal d := by
  unfold lowestFrequency at hok
  cases hfl : firstLetters words with
  | none => rw [hfl] at hok; cases hok
  | some firsts =>
      rw [hfl] at hok
      have hok2 : (if (firsts.dedup.all fun c => FREQS.any fun p => decide (p.1 = c)) = true
          then
            (match FREQS.find? (fun p => firsts.dedup.contains p.1) with
              | some p => (Except.ok p.1 : Except String Char)
              | none => Except.error "KeyError")
          else Except.error "KeyError") = Except.ok ch := hok
      by_cases hall : (firsts.dedup.all fun c => FREQS.any fun p => decide (p.1 = c)) = true
      · rw [if_pos hall] at hok2
        cases hfind : FREQS.find? (fun p => firsts.dedup.contains p.1) with
        | none => rw [hfind] at hok2; cases hok2
        | some pr =>
            rw [hfind] at hok2
            have hch : pr.1 = ch := by
              cases hok2
              rfl
            refine ⟨firsts, rfl, ?_, ?_⟩
            · have hc := List.find?_some hfind
              simp only [decide_eq_true_eq] at hc
              rw [← hch]
              have := List.contains_iff_exists_mem_beq.mp hc
              obtain ⟨a, ha, hab⟩ := this
              have : pr.1 = a := by
                simpa using hab
              rw [this]
              exact List.mem_dedup.mp ha
            · intro d hd
              have hd2 : d ∈ firsts.dedup := List.mem_dedup.mpr hd
              have hdF : FREQS.any (fun p => p.1 = d) = true := by
                rw [List.all_eq_true] at hall
                exact hall d hd2
              rw [List.any_eq_true] at hdF
              obtain ⟨q, hq, hqd⟩ := hdF
              simp only [decide_eq_true_eq] at hqd
              have hPq : (fun p => firsts.dedup.contains p.1) q = true := by
                simp only [hqd]
                exact List.contains_iff_exists_mem_beq.mpr ⟨d, hd2, by simp⟩
              have hle := find?_first_le FREQS (by decide) _ pr hfind q hq hPq
              have hvch : freqVal ch = pr.2 := by
                rw [← hch]
                unfold freqVal
                have hfq : FREQS.find? (fun p => p.1 = pr.1) = some pr := by
                  have hprm := List.mem_of_find?_eq_some hfind
                  simp only [FREQS, List.mem_cons, List.not_mem_nil, or_false] at hprm
                  rcases hprm with h | h | h | h <;> rw [h] <;> decide
                rw [hfq]
              have hvd : freqVal d = q.2 := by
                unfold freqVal
                have hfq : FREQS.find? (fun p => p.1 = d) = some q := by
                  rw [← hqd]
                  have hqm := hq
                  simp only [FREQS, List.mem_cons, List.not_mem_nil, or_false] at hqm
                  rcases hqm with h | h | h | h <;> rw [h] <;> decide
                rw [hfq]
              rw [hvch, hvd]
              exact hle
      · rw [if_neg hall] at hok2
        cases hok2

/-- C6: when several native frequencies are present among the successfully
downloaded indicators and no target frequency is given, `datos` harmonizes
all series to a single common frequency: the coarsest one present — the
minimum under the ordering annual < semiannual < quarterly < monthly <
weekly < daily (`Freq.rank`) — resampling exactly those series whose native
frequency differs from it before assembling the DataFrame; and
`utils.lowestFrequency` (the frequency selector of the `read` entry point)
likewise returns the coarsest first-letter frequency label of its inputs
under the A < Q < M < D order of `FREQS`. -/
theorem datos_harmonize (indicadores : List (String × String)) (dl : String → Option Unit)
    (frec : String → Freq) (fillna : Option String)
    (hnodup : (indicadores.map Prod.fst).Nodup)
    (hmulti : 2 ≤ (nativeFreqs indicadores dl frec).dedup.length) :
    (freqMin (nativeFreqs indicadores dl frec) ∈ nativeFreqs indicadores dl frec
      ∧ ∀ f ∈ nativeFreqs indicadores dl frec,
          (freqMin (nativeFreqs indicadores dl frec)).rank ≤ f.rank)
    ∧ datosCore indicadores dl frec none fillna =
        .table ((keptOf indicadores dl).map (fun nc =>
          if frec nc.2 ≠ freqMin (nativeFreqs indicadores dl frec) then
            (nc.1, .resample (fillWrap fillna (meanExpr nc.1 (frec nc.2)))
              (freqMin (nativeFreqs indicadores dl frec)) "apply")
          else (nc.1, fillWrap fillna (meanExpr nc.1 (frec nc.2)))))
    ∧ ∀ (words : List String) (ch : Char), lowestFrequency words = .ok ch →
        ∃ firsts, firstLetters words = some firsts ∧ ch ∈ firsts ∧
          ∀ d ∈ firsts, freqVal ch ≤ freqVal d := by
  have hnne : nativeFreqs indicadores dl frec ≠ [] := by
    intro h
    rw [h] at hmulti
    simp at hmulti
  have hkne : keptOf indicadores dl ≠ [] := by
    intro h
    apply hnne
    unfold nativeFreqs freqsOf
    rw [h]
    rfl
  have hknodup : ((keptOf indicadores dl).map Prod.fst).Nodup := by
    exact List.Nodup.sublist (List.Sublist.map _ (List.filter_sublist _)) hnodup
  refine ⟨⟨freqMin_mem _ hnne, fun f hf => freqMin_le _ f hf⟩, ?_,
    fun words ch hok => lowestFrequency_min words ch hok⟩
  rw [datosCore_table _ _ _ _ _ hkne]
  congr 1
  unfold harmonized
  have hn : ((freqsOf (keptOf indicadores dl) frec).map Prod.snd).dedup.length > 1 ∨
      (none : Option Freq).isSome = true := by
    left
    exact Nat.lt_of_lt_of_le Nat.one_lt_two hmulti
  rw [if_pos hn]
  cases fillna with
  | none =>
      rw [List.map_map]
      apply List.map_congr_left
      intro nc hnc
      have hlf : lookupFreq (freqsOf (keptOf indicadores dl) frec) nc.1 = frec nc.2 :=
        lookupFreq_eq (keptOf indicadores dl) frec hknodup nc hnc
      by_cases hc : frec nc.2 = freqMin ((freqsOf (keptOf indicadores dl) frec).map Prod.snd)
      · simp [hlf, hc, nativeFreqs, fillWrap]
      · simp [hlf, hc, nativeFreqs, fillWrap]
  | some m =>
      rw [List.map_map, List.map_map]
      apply List.map_congr_left
      intro nc hnc
      have hlf : lookupFreq (freqsOf (keptOf indicadores dl) frec) nc.1 = frec nc.2 :=
        lookupFreq_eq (keptOf indicadores dl) frec hknodup nc hnc
      by_cases hc : frec nc.2 = freqMin ((freqsOf (keptOf indicadores dl) frec).map Prod.snd)
      · simp [hlf, hc, nativeFreqs, fillWrap]
      · simp [hlf, hc, nativeFreqs, fillWrap]

/-- C6 witness: a daily and a monthly indicator requested together with no
target frequency: the daily series (TPM) is resampled to the common monthly
frequency, the monthly one (IMAE) is not. -/
theorem datos_harmonize_witness :
    datosCore [("TPM", "3541"), ("IMAE", "913")]
        (fun _ => some ()) (fun c => if c = "3541" then Freq.D else Freq.M) none none =
      .table [("TPM", .resample (.resample (.raw "TPM") Freq.D "mean") Freq.M "apply"),
              ("IMAE", .resample (.raw "IMAE") Freq.M "mean")] := by
  have h := (datos_harmonize [("TPM", "3541"), ("IMAE", "913")] (fun _ => some ())
    (fun c => if c = "3541" then Freq.D else Freq.M) none (by decide) (by decide)).2.1
  rw [h]
  decide

/-! ### C7: failed downloads are reported and dropped -/

/-- C7 counterexample: the claim "`datos` drops a failed indicator from the
returned table" fails when every requested indicator fails: `__descargar__`
returns `None` for the sole indicator, yet its name is a column of the
returned (empty) DataFrame. -/
theorem datos_drop_counterexample :
    (descargar "3541" ⟨404, "Not Found", []⟩).1 = none
    ∧ (descargar "3541" ⟨404, "Not Found", []⟩).2 ≠ []
    ∧ datosCore [("TPM", "3541")]
        (fun c => ((descargar c ⟨404, "Not Found", []⟩).1).map (fun _ => ()))
        (fun _ => Freq.M) none none = .empty ["TPM"]
    ∧ "TPM" ∈ (datosCore [("TPM", "3541")]
        (fun c => ((descargar c ⟨404, "Not Found", []⟩).1).map (fun _ => ()))
        (fun _ => Freq.M) none none).columnNames := by
  refine ⟨rfl, by decide, rfl, by decide⟩

/-- C7 (amended): on a non-200 status, or a 200 response with no observation
records, `__descargar__` prints the error message and returns `None` (it is a
total function — no exception propagates); and `datos` drops that indicator
from the returned table whenever at least one requested indicator succeeds
(when every one fails, the indicator still appears as a column of the empty
DataFrame returned — see the counterexample and C9). -/
theorem descargar_fail_drops (ind : String) (resp : Resp)
    (hbad : resp.status ≠ 200 ∨ resp.observations = []) :
    (descargar ind resp).1 = none
    ∧ (descargar ind resp).2 = [descargar_msg ind resp.reason]
    ∧ ∀ (indicadores : List (String × String)) (dl : String → Option Unit)
        (frec : String → Freq) (freqArg : Option Freq) (fillna : Option String)
        (nombre codigo : String),
        (indicadores.map Prod.fst).Nodup →
        (nombre, codigo) ∈ indicadores → dl codigo = none →
        keptOf indicadores dl ≠ [] →
        nombre ∉ (datosCore indicadores dl frec freqArg fillna).columnNames := by
  have hdesc : (descargar ind resp).1 = none ∧
      (descargar ind resp).2 = [descargar_msg ind resp.reason] := by
    unfold descargar
    by_cases hs : resp.status = 200
    · have hobs : resp.observations = [] := by
        rcases hbad with h | h
        · exact absurd hs h
        · exact h
      rw [if_pos hs, hobs]
      exact ⟨rfl, rfl⟩
    · rw [if_neg hs]
      exact ⟨rfl, rfl⟩
  refine ⟨hdesc.1, hdesc.2, ?_⟩
  intro indicadores dl frec freqArg fillna nombre codigo hnodup hmem hfail hkne hcol
  rw [datosCore_table _ _ _ _ _ hkne] at hcol
  have hcol2 : nombre ∈ (harmonized (keptOf indicadores dl) frec freqArg fillna).map Prod.fst :=
    hcol
  rw [harmonized_fst] at hcol2
  obtain ⟨nc, hnc, hnce⟩ := List.mem_map.mp hcol2
  have hnci : nc ∈ indicadores := List.mem_of_mem_filter hnc
  have hncs : (dl nc.2).isSome = true := by
    have := List.of_mem_filter hnc
    simpa using this
  have : nc = (nombre, codigo) :=
    eq_of_mem_nodup_keys indicadores hnodup nc (nombre, codigo) hnci hmem hnce
  rw [this] at hncs
  rw [hfail] at hncs
  cases hncs

/-- C7 witness: a 500 response for indicator 1 is reported and returns
`None`; with a second indicator succeeding, the failed one is absent from the
returned table. -/
theorem descargar_fail_drops_witness :
    (descargar "1" ⟨500, "Server Error", []⟩).1 = none
    ∧ "A" ∉ (datosCore [("A", "1"), ("B", "2")]
        (fun c => if c = "2" then some () else none)
        (fun _ => Freq.M) none none).columnNames := by
  have h := descargar_fail_drops "1" ⟨500, "Server Error", []⟩ (by decide)
  exact ⟨h.1, h.2.2 [("A", "1"), ("B", "2")]
    (fun c => if c = "2" then some () else none) (fun _ => Freq.M) none none
    "A" "1" (by decide) (by decide) (by decide) (by decide)⟩

/-! ## C1: the table-reshaping layer (`download.read*` + `utils.tidy`)

The six `read*` functions of `download.py` (the formats wired into the `read`
entry point via `READMETHODS`) each take the raw downloaded grid (rows ×
columns, column 0 = `V0`), locate the header row with `findFirstElement`,
drop everything above it, reshape (delete `V0`, transpose and/or stack), and
hand the cells to `utils.tidy` together with a constructed date range and the
requested (or title-derived) names.  We embed the per-chart body of each
function; timestamps are period ordinals (`ℤ`), so a `pd.date_range(start,
periods, freq)` is `intRange t0 n`. -/

/-- Decidable equality for `Except` results. -/
def exceptDecEq {ε α : Type} [DecidableEq ε] [DecidableEq α] :
    DecidableEq (Except ε α) := fun a b =>
  match a, b with
  | .ok x, .ok y =>
      if h : x = y then .isTrue (by rw [h]) else .isFalse (by intro he; cases he; exact h rfl)
  | .error x, .error y =>
      if h : x = y then .isTrue (by rw [h]) else .isFalse (by intro he; cases he; exact h rfl)
  | .ok _, .error _ => .isFalse (by intro he; cases he)
  | .error _, .ok _ => .isFalse (by intro he; cases he)

instance {ε α : Type} [DecidableEq ε] [DecidableEq α] : DecidableEq (Except ε α) :=
  exceptDecEq

/-- A raw downloaded table: its rows of cells (column 0 is `V0`). -/
abbrev Grid := List (List Cell)

/-- Python `str(cell)` as far as the header regexes are concerned: a string
cell is itself, `NaN` stringifies to `"nan"`; a numeric cell stringifies to
its float representation, which matches none of the textual header patterns
used here (modelled as the empty, non-matching string). -/
def strOfCell : Cell → List Char
  | .str s => s
  | .nan => ['n', 'a', 'n']
  | .num _ => []

/-- `re.match(pat, s, re.IGNORECASE)` for a literal lowercase pattern:
case-insensitive prefix match. -/
def lcStartsWith (pat : List Char) (cs : List Char) : Bool :=
  (cs.take pat.length).map Char.toLower == pat

/-- `'Total' in str(x)`: case-sensitive substring test. -/
def containsSeq (pat s : List Char) : Bool :=
  (List.range (s.length + 1)).any (fun i => ((s.drop i).take pat.length) == pat)

/-- `re.match('Enero', str(x), re.IGNORECASE)`. -/
def matchEnero (c : Cell) : Bool := lcStartsWith "enero".data (strOfCell c)

/-- `re.match('^[12]', str(x), re.IGNORECASE)`: first character 1 or 2. -/
def match12 (c : Cell) : Bool :=
  match strOfCell c with
  | [] => false
  | c0 :: _ => c0 == '1' || c0 == '2'

/-- `re.match('^trim', str(x), re.IGNORECASE)`. -/
def matchTrim (c : Cell) : Bool := lcStartsWith "trim".data (strOfCell c)

/-- `re.match('1 Ene', str(x), re.IGNORECASE)`. -/
def match1Ene (c : Cell) : Bool := lcStartsWith "1 ene".data (strOfCell c)

/-- `utils.findFirstElement`: index of the first matching element, raising
`ValueError('No match found!')` when there is none. -/
def findFirstElement (p : Cell → Bool) (l : List Cell) : Except String Nat :=
  match l.findIdx? p with
  | some i => .ok i
  | none => .error "ValueError: No match found!"

/-- Column `j` of the grid (`rawdata['Vj']`). -/
def colOf (g : Grid) (j : Nat) : List Cell := g.map (fun r => r.getD j Cell.nan)

/-- `rawdata.iloc[i]` with Python's negative-index wrap-around; raises
`IndexError` out of range. -/
def ilocRow (g : Grid) (i : Int) : Except String (List Cell) :=
  let n : Int := g.length
  let k : Int := if i < 0 then n + i else i
  if 0 ≤ k ∧ k < n then .ok (g.getD k.toNat []) else .error "IndexError"

/-- Parsing the year string handed to `pd.date_range` (raises on anything
that is not a plain year number). -/
def parseYearStr (cs : List Char) : Except String Nat :=
  if !cs.isEmpty && cs.all Char.isDigit then .ok (natOfDigits cs)
  else .error "ValueError: could not parse date"

/-- Quarter ordinal (`4*year + quarter - 1`) of the string handed to
`parseQuarterYear` and then to `pd.date_range(..., freq='Q')`; same
extraction and quarter/year swap as `parseQuarterYear`. -/
def parseQuarterOrd (cs : List Char) : Except String Int :=
  match (reFindNumbers cs).mapM pyInt? with
  | none => .error "ValueError: invalid literal for int()"
  | some [q0, year0] =>
      if 1 ≤ q0 ∧ q0 ≤ 4 then .ok (4 * year0 + (q0 - 1))
      else if 1 ≤ year0 ∧ year0 ≤ 4 then .ok (4 * q0 + (year0 - 1))
      else .error "ValueError: Cannot identify the quarter"
  | some _ => .error "ValueError: not exactly two values to unpack"

/-- Number of days from 1 January of year 0 to 1 January of year `y`
(proleptic Gregorian): the daily period ordinal of `pd.date_range(y + '/01',
freq='D')`. -/
def daysFromYear0 (y : Nat) : Nat := ((List.range y).map daysInYear).sum

/-- `pd.date_range(t0, periods, freq)` as the list of period ordinals
`t0, t0+1, …, t0+n-1`. -/
def intRange (t0 : ℤ) (n : Nat) : List ℤ := (List.range n).map (fun k : Nat => t0 + (k : ℤ))

/-- `fixCommas` followed by reading the float value: `some q` for a number,
`none` for a missing value, an error for an unparsable string. -/
def parseCell (c : Cell) : Except String (Option ℚ) :=
  match fixCommas c with
  | .ok (.num q) => .ok (some q)
  | .ok _ => .ok none
  | .error e => .error e

/-- A tidy series: its name and its (timestamp, value) rows. -/
structure TidySeries where
  name : List Char
  rows : List (ℤ × Option ℚ)
  deriving DecidableEq, Repr

/-- A tidy table: its column names and its (timestamp, row-of-values) rows. -/
structure TidyFrame where
  colnames : List (List Char)
  rows : List (ℤ × List (Option ℚ))
  deriving DecidableEq, Repr

/-- `utils.tidy` on a stacked series: set the time index (pandas raises on a
length mismatch), apply `fixCommas` to every value, set the name, and drop
the missing values.  (`resample(data, freq, func)` is the identity at the
default `freq=None` used by the claims below.) -/
def tidySeries (vals : List Cell) (timeindex : List ℤ) (name : List Char) :
    Except String TidySeries :=
  if vals.length = timeindex.length then do
    let parsed ← vals.mapM parseCell
    pure ⟨name, (timeindex.zip parsed).filter (fun tv => tv.2.isSome)⟩
  else .error "ValueError: Length mismatch"

/-- `utils.tidy` on a DataFrame: set the time index, set the column names,
`applymap(fixCommas)`, then `dropna(0, 'all').dropna(1, 'all')` — drop the
rows, then the columns, consisting entirely of missing values. -/
def tidyFrame (rows : List (List Cell)) (timeindex : List ℤ)
    (colnames : List (List Char)) : Except String TidyFrame :=
  if rows.length = timeindex.length then do
    let parsed ← rows.mapM (fun r => r.mapM parseCell)
    let rows0 := timeindex.zip parsed
    let rows1 := rows0.filter (fun r => r.2.any (fun v => v.isSome))
    let keep := (List.range colnames.length).filter
      (fun j => rows1.any (fun r => (r.2.getD j none).isSome))
    pure ⟨keep.map (fun j => colnames.getD j []),
          rows1.map (fun r => (r.1, keep.map (fun j => r.2.getD j none)))⟩
  else .error "ValueError: Length mismatch"

/-- Columns `0 … m-1` of a grid: `transpose()` of a frame of width `m`. -/
def gridCols (g : Grid) (m : Nat) : List (List Cell) :=
  (List.range m).map (fun j => g.map (fun r => r.getD j Cell.nan))

/-- Map with the element index (used for the 29 Feb masking). -/
def enumMap {α β : Type} (f : Nat → α → β) (l : List α) : List β :=
  ((List.range l.length).zip l).map (fun p => f p.1 p.2)

/-- `download.readYearMonth`, body for one chart: rows are years, columns are
months; find the `Enero` header in `V1`, drop the rows through it, read the
first year label, delete `V0`, stack row-major, and tidy with a monthly range
(month ordinal `12*year`). -/
def readYearMonthT (grid : Grid) (varName : List Char) :
    Except String TidySeries := do
  let title := strOfCell ((grid.getD 0 []).getD 0 Cell.nan)
  let name := if varName.isEmpty then title else varName
  let h ← findFirstElement matchEnero (colOf grid 1)
  let g1 := grid.drop (h + 1)
  let r0 ← match g1 with
    | [] => throw "IndexError"
    | r :: _ => pure r
  let y ← parseYearStr (strOfCell (r0.getD 0 Cell.nan))
  let g2 := g1.map (fun r => r.drop 1)
  let vals := g2.flatten
  tidySeries vals (intRange (12 * (y : ℤ)) vals.length) name

/-- `download.readMonthYear`, body for one chart: rows are months, columns
are years; find the `Enero` header in `V0`, read the first year label from
the row above (two above when that row is a `Total` row), drop the rows above
the header, delete `V0`, transpose-stack (year-major), and tidy with a
monthly range. -/
def readMonthYearT (grid : Grid) (w : Nat) (varName : List Char) :
    Except String TidySeries := do
  let title := strOfCell ((grid.getD 0 []).getD 0 Cell.nan)
  let name := if varName.isEmpty then title else varName
  let h ← findFirstElement matchEnero (colOf grid 0)
  let r1 ← ilocRow grid ((h : Int) - 1)
  let year0cell ←
    if containsSeq "Total".data (strOfCell (r1.getD 0 Cell.nan)) then do
      let r2 ← ilocRow grid ((h : Int) - 2)
      pure (r2.getD 1 Cell.nan)
    else pure (r1.getD 1 Cell.nan)
  let y ← parseYearStr (strOfCell year0cell)
  let g2 := (grid.drop h).map (fun r => r.drop 1)
  let vals := (gridCols g2 (w - 1)).flatten
  tidySeries vals (intRange (12 * (y : ℤ)) vals.length) name

/-- `download.readIndicatorYear`, body for one chart: rows are indicators,
columns are years; find the first year row in `V1`, read the first year,
drop the rows through it, take the indicator labels from `V0` (string
concatenation `varName + v` requires string labels), delete `V0`, transpose,
and tidy as a table with an annual range. -/
def readIndicatorYearT (grid : Grid) (w : Nat) (varName : List Char) :
    Except String TidyFrame := do
  let h ← findFirstElement match12 (colOf grid 1)
  let y ← parseYearStr (strOfCell ((grid.getD h []).getD 1 Cell.nan))
  let g1 := grid.drop (h + 1)
  let indicators ← g1.mapM (fun r =>
    match r.getD 0 Cell.nan with
    | .str s => pure s
    | _ => throw "TypeError: can only concatenate str")
  let g2 := g1.map (fun r => r.drop 1)
  let rowsT := gridCols g2 (w - 1)
  tidyFrame rowsT (intRange (y : ℤ) rowsT.length) (indicators.map (fun v => varName ++ v))

/-- `download.readIndicatorQuarter`, body for one chart: like
`readIndicatorYear` with a `trim…` header in `V1` and a quarterly range
starting at the parsed quarter. -/
def readIndicatorQuarterT (grid : Grid) (w : Nat) (varName : List Char) :
    Except String TidyFrame := do
  let h ← findFirstElement matchTrim (colOf grid 1)
  let t0 ← parseQuarterOrd (strOfCell ((grid.getD h []).getD 1 Cell.nan))
  let g1 := grid.drop (h + 1)
  let indicators ← g1.mapM (fun r =>
    match r.getD 0 Cell.nan with
    | .str s => pure s
    | _ => throw "TypeError: can only concatenate str")
  let g2 := g1.map (fun r => r.drop 1)
  let rowsT := gridCols g2 (w - 1)
  tidyFrame rowsT (intRange t0 rowsT.length) (indicators.map (fun v => varName ++ v))

/-- `download.readQuarterIndicator`, body for one chart: rows are quarters,
columns are indicators; find the `trim…` header in `V0`, parse its quarter,
take the indicator labels from the row above it (columns 1 onward), drop the
rows above the header, delete `V0`, and tidy as a table with a quarterly
range. -/
def readQuarterIndicatorT (grid : Grid) (varName : List Char) :
    Except String TidyFrame := do
  let h ← findFirstElement matchTrim (colOf grid 0)
  let t0 ← parseQuarterOrd (strOfCell ((grid.getD h []).getD 0 Cell.nan))
  let r1 ← ilocRow grid ((h : Int) - 1)
  let indicators ← (r1.drop 1).mapM (fun c =>
    match c with
    | .str s => pure s
    | _ => throw "TypeError: can only concatenate str")
  let g2 := (grid.drop h).map (fun r => r.drop 1)
  tidyFrame g2 (intRange t0 g2.length) (indicators.map (fun v => varName ++ v))

/-- `download.readDayYear`, body for one chart: rows are days, columns are
years; find the `1 Ene` header in `V0`, read the first year from the row
above it, drop the rows above the header, delete `V0`, write `'DELETE ME'`
into row 59 of every non-leap-year column, transpose-stack (year-major),
remove the marked cells, and tidy with a daily range. -/
def readDayYearT (grid : Grid) (w : Nat) (varName : List Char) :
    Except String TidySeries := do
  let title := strOfCell ((grid.getD 0 []).getD 0 Cell.nan)
  let name := if varName.isEmpty then title else varName
  let h ← findFirstElement match1Ene (colOf grid 0)
  let r1 ← ilocRow grid ((h : Int) - 1)
  let y ← parseYearStr (strOfCell (r1.getD 1 Cell.nan))
  let g2 := (grid.drop h).map (fun r => r.drop 1)
  if 59 < g2.length then
    let g3 := enumMap (fun i row =>
      if i = 59 then
        enumMap (fun j c => if is_leap_year (y + j) then c else Cell.str "DELETE ME".data) row
      else row) g2
    let vals := ((gridCols g3 (w - 1)).flatten).filter
      (fun c => c ≠ Cell.str "DELETE ME".data)
    tidySeries vals (intRange (daysFromYear0 y : ℤ) vals.length) name
  else throw "IndexError: single positional indexer is out-of-bounds"

/-- The chart formats supported by the `read` entry point (`READMETHODS`). -/
inductive ChartFormat where
  | YearMonth | MonthYear | IndicatorYear | IndicatorQuarter | QuarterIndicator | DayYear
  deriving DecidableEq, Repr

/-- The tidy result: a one-column series or a multi-column table. -/
inductive TidyOut where
  | series (s : TidySeries)
  | frame (f : TidyFrame)
  deriving DecidableEq, Repr

/-- The dispatch of `READMETHODS`: the per-chart reshaping pipeline of each
supported format. -/
def readMethod (fmt : ChartFormat) (grid : Grid) (w : Nat) (varName : List Char) :
    Except String TidyOut :=
  match fmt with
  | .YearMonth => (readYearMonthT grid varName).map .series
  | .MonthYear => (readMonthYearT grid w varName).map .series
  | .DayYear => (readDayYearT grid w varName).map .series
  | .IndicatorYear => (readIndicatorYearT grid w varName).map .frame
  | .IndicatorQuarter => (readIndicatorQuarterT grid w varName).map .frame
  | .QuarterIndicator => (readQuarterIndicatorT grid varName).map .frame

/-- The regex used to locate the header row of each format. -/
def headerMatcher : ChartFormat → (Cell → Bool)
  | .YearMonth => matchEnero
  | .MonthYear => matchEnero
  | .IndicatorYear => match12
  | .IndicatorQuarter => matchTrim
  | .QuarterIndicator => matchTrim
  | .DayYear => match1Ene

/-- The column in which each format searches for its header row. -/
def headerColIdx : ChartFormat → Nat
  | .YearMonth => 1
  | .MonthYear => 0
  | .IndicatorYear => 1
  | .IndicatorQuarter => 1
  | .QuarterIndicator => 0
  | .DayYear => 0

/-- How many leading rows each format discards once the header row `h` is
found (`h+1` when the header row itself carries no data, `h` otherwise). -/
def headerCut : ChartFormat → Nat → Nat
  | .YearMonth, h => h + 1
  | .MonthYear, h => h
  | .IndicatorYear, h => h + 1
  | .IndicatorQuarter, h => h + 1
  | .QuarterIndicator, h => h
  | .DayYear, h => h

/-- The tidiness invariant asserted by the specification, for the output of
each supported chart format on a raw grid: (i) the time index is strictly
ascending (hence with unique timestamps); (ii) missing values are dropped —
a series carries no missing value, a table keeps no all-missing row and no
all-missing column; (iii) the names are the requested ones (or title-derived
for a series; `varName`-prefixed source labels for a table); and (iv) every
value originates, via `fixCommas`, from a cell strictly below the header
rows of the source table — no header or footer content survives. -/
def TidyInvariant (fmt : ChartFormat) (grid : Grid) (varName : List Char) :
    TidyOut → Prop
  | .series s =>
      (s.rows.map Prod.fst).Pairwise (· < ·)
      ∧ (∀ r ∈ s.rows, r.2.isSome = true)
      ∧ s.name = (if varName.isEmpty
          then strOfCell ((grid.getD 0 []).getD 0 Cell.nan) else varName)
      ∧ ∃ h, findFirstElement (headerMatcher fmt) (colOf grid (headerColIdx fmt)) = .ok h
          ∧ ∀ r ∈ s.rows, ∃ cell ∈ (grid.drop (headerCut fmt h)).flatten,
              parseCell cell = .ok r.2
  | .frame f =>
      (f.rows.map Prod.fst).Pairwise (· < ·)
      ∧ (∀ r ∈ f.rows, ∃ v ∈ r.2, v.isSome = true)
      ∧ (∀ j, j < f.colnames.length → ∃ r ∈ f.rows, (r.2.getD j none).isSome = true)
      ∧ (∀ c ∈ f.colnames, ∃ v, c = varName ++ v)
      ∧ ∃ h, findFirstElement (headerMatcher fmt) (colOf grid (headerColIdx fmt)) = .ok h
          ∧ ∀ r ∈ f.rows, ∀ v ∈ r.2, ∃ cell ∈ (grid.drop (headerCut fmt h)).flatten,
              parseCell cell = .ok v

lemma except_bind_ok {α β : Type} (m : Except String α) (f : α → Except String β) (b : β) :
    m >>= f = .ok b ↔ ∃ a, m = .ok a ∧ f a = .ok b := by
  cases m with
  | ok a =>
      constructor
      · intro h
        exact ⟨a, rfl, h⟩
      · rintro ⟨a2, ha, hf⟩
        injection ha with ha2
        rw [← ha2] at hf
        exact hf
  | error e =>
      constructor
      · intro h
        exact Except.noConfusion h
      · rintro ⟨a2, ha, _⟩
        exact Except.noConfusion ha

lemma except_map_ok {α β : Type} (m : Except String α) (g : α → β) (b : β) :
    m.map g = .ok b ↔ ∃ a, m = .ok a ∧ g a = b := by
  cases m with
  | ok a =>
      constructor
      · intro h
        injection h with h2
        exact ⟨a, rfl, h2⟩
      · rintro ⟨a2, ha, hf⟩
        injection ha with ha2
        rw [← ha2] at hf
        rw [show (Except.ok a).map g = Except.ok (g a) from rfl, hf]
  | error e =>
      constructor
      · intro h
        exact Except.noConfusion h
      · rintro ⟨a2, ha, _⟩
        exact Except.noConfusion ha

lemma mapM_ok_length {α β : Type} (f : α → Except String β) :
    ∀ (l : List α) (res : List β), l.mapM f = .ok res → res.length = l.length := by
  intro l
  induction l with
  | nil =>
      intro res h
      rw [List.mapM_nil] at h
      injection h with h2
      rw [← h2]
      rfl
  | cons a t ih =>
      intro res h
      rw [List.mapM_cons] at h
      rw [except_bind_ok] at h
      obtain ⟨b, hb, h⟩ := h
      rw [except_bind_ok] at h
      obtain ⟨bs, hbs, h⟩ := h
      injection h with h2
      rw [← h2]
      simp [ih bs hbs]

lemma mapM_ok_mem {α β : Type} (f : α → Except String β) :
    ∀ (l : List α) (res : List β), l.mapM f = .ok res →
      ∀ b ∈ res, ∃ a ∈ l, f a = .ok b := by
  intro l
  induction l with
  | nil =>
      intro res h b hb
      rw [List.mapM_nil] at h
      injection h with h2
      rw [← h2] at hb
      simp at hb
  | cons a t ih =>
      intro res h b hb
      rw [List.mapM_cons] at h
      rw [except_bind_ok] at h
      obtain ⟨b1, hb1, h⟩ := h
      rw [except_bind_ok] at h
      obtain ⟨bs, hbs, h⟩ := h
      injection h with h2
      rw [← h2] at hb
      rcases List.mem_cons.mp hb with hh | hh
      · exact ⟨a, by simp, by rw [← hh] at hb1; exact hb1⟩
      · obtain ⟨a2, ha2, hf⟩ := ih bs hbs b hh
        exact ⟨a2, by simp [ha2], hf⟩

lemma intRange_pairwise (t0 : ℤ) (n : Nat) : (intRange t0 n).Pairwise (· < ·) := by
  unfold intRange
  refine List.pairwise_map.mpr ?_
  refine (List.pairwise_lt_range n).imp ?_
  intro a b hab
  omega

lemma getElem?_eq_some_getD {α : Type} (l : List α) (j : Nat) (d : α) (h : j < l.length) :
    l[j]? = some (l.getD j d) := by
  rw [List.getD_eq_getElem?_getD]
  cases hh : l[j]? with
  | none =>
      rw [List.getElem?_eq_none_iff] at hh
      omega
  | some a => rfl

lemma getD_mem {α : Type} (l : List α) (j : Nat) (d : α) (h : j < l.length) :
    l.getD j d ∈ l :=
  List.getElem?_mem (getElem?_eq_some_getD l j d h)

/-- The tidy-series layer: given a strictly ascending time index of matching
length, the output keeps the given name, has a strictly ascending index,
contains no missing value, and every surviving value is the `fixCommas`-parse
of one of the stacked cells. -/
lemma tidySeries_spec (vals : List Cell) (timeindex : List ℤ) (name : List Char)
    (out : TidySeries) (hasc : timeindex.Pairwise (· < ·))
    (hok : tidySeries vals timeindex name = .ok out) :
    out.name = name
    ∧ (out.rows.map Prod.fst).Pairwise (· < ·)
    ∧ (∀ r ∈ out.rows, r.2.isSome = true)
    ∧ ∀ r ∈ out.rows, ∃ cell ∈ vals, parseCell cell = .ok r.2 := by
  unfold tidySeries at hok
  by_cases hl : vals.length = timeindex.length
  swap
  · rw [if_neg hl] at hok
    exact Except.noConfusion hok
  rw [if_pos hl] at hok
  rw [show (do
      let parsed ← vals.mapM parseCell
      pure (⟨name, (timeindex.zip parsed).filter (fun tv => tv.2.isSome)⟩ : TidySeries)) =
    vals.mapM parseCell >>= (fun parsed =>
      pure (⟨name, (timeindex.zip parsed).filter (fun tv => tv.2.isSome)⟩ : TidySeries))
    from rfl] at hok
  rw [except_bind_ok] at hok
  obtain ⟨parsed, hp, hok⟩ := hok
  injection hok with hok2
  rw [← hok2]
  have hplen : parsed.length = vals.length := mapM_ok_length parseCell vals parsed hp
  refine ⟨rfl, ?_, ?_, ?_⟩
  · apply List.Pairwise.sublist (List.Sublist.map Prod.fst (List.filter_sublist _))
    rw [List.map_fst_zip timeindex parsed (by omega)]
    exact hasc
  · intro r hr
    have h5 := List.of_mem_filter hr
    simp only [decide_eq_true_eq] at h5
    exact h5
  · intro r hr
    obtain ⟨t, v⟩ := r
    have hz : (t, v) ∈ timeindex.zip parsed := List.mem_of_mem_filter hr
    have hv : v ∈ parsed := (List.of_mem_zip hz).2
    obtain ⟨cell, hc, hpc⟩ := mapM_ok_mem parseCell vals parsed hp v hv
    exact ⟨cell, hc, hpc⟩

/-- The tidy-frame layer: given a strictly ascending time index of matching
length and rows as wide as the column-name list, the output has a strictly
ascending index, no all-missing row, no all-missing column, column names
drawn from the given ones, and every value is the parse of a source cell. -/
lemma tidyFrame_spec (rows : List (List Cell)) (timeindex : List ℤ)
    (colnames : List (List Char)) (out : TidyFrame)
    (hasc : timeindex.Pairwise (· < ·))
    (hwidth : ∀ r ∈ rows, r.length = colnames.length)
    (hok : tidyFrame rows timeindex colnames = .ok out) :
    (out.rows.map Prod.fst).Pairwise (· < ·)
    ∧ (∀ r ∈ out.rows, ∃ v ∈ r.2, v.isSome = true)
    ∧ (∀ j, j < out.colnames.length → ∃ r ∈ out.rows, (r.2.getD j none).isSome = true)
    ∧ (∀ c ∈ out.colnames, c ∈ colnames)
    ∧ (∀ r ∈ out.rows, ∀ v ∈ r.2, ∃ cell ∈ rows.flatten, parseCell cell = .ok v) := by
  unfold tidyFrame at hok
  by_cases hl : rows.length = timeindex.length
  swap
  · rw [if_neg hl] at hok
    exact Except.noConfusion hok
  rw [if_pos hl] at hok
  rw [show (do
      let parsed ← rows.mapM (fun r => r.mapM parseCell)
      let rows0 := timeindex.zip parsed
      let rows1 := rows0.filter (fun r => r.2.any (fun v => v.isSome))
      let keep := (List.range colnames.length).filter
        (fun j => rows1.any (fun r => (r.2.getD j none).isSome))
      pure (⟨keep.map (fun j => colnames.getD j []),
            rows1.map (fun r => (r.1, keep.map (fun j => r.2.getD j none)))⟩ : TidyFrame)) =
    rows.mapM (fun r => r.mapM parseCell) >>= (fun parsed =>
      pure (⟨((List.range colnames.length).filter
          (fun j => ((timeindex.zip parsed).filter
            (fun r => r.2.any (fun v => v.isSome))).any
              (fun r => (r.2.getD j none).isSome))).map (fun j => colnames.getD j []),
        ((timeindex.zip parsed).filter (fun r => r.2.any (fun v => v.isSome))).map
          (fun r => (r.1, ((List.range colnames.length).filter
            (fun j => ((timeindex.zip parsed).filter
              (fun r => r.2.any (fun v => v.isSome))).any
                (fun r => (r.2.getD j none).isSome))).map
                  (fun j => r.2.getD j none)))⟩ : TidyFrame))
    from rfl] at hok
  rw [except_bind_ok] at hok
  obtain ⟨parsed, hp, hok⟩ := hok
  injection hok with hok2
  rw [← hok2]
  have hplen : parsed.length = rows.length := mapM_ok_length _ rows parsed hp
  set rows1 := ((timeindex.zip parsed).filter (fun r => r.2.any (fun v => v.isSome)))
    with hrows1
  set keep := ((List.range colnames.length).filter
    (fun j => rows1.any (fun r => (r.2.getD j none).isSome))) with hkeep
  have hrows1zip : ∀ r ∈ rows1, r ∈ timeindex.zip parsed := by
    intro r hr
    exact List.mem_of_mem_filter hr
  have hprovrow : ∀ pr ∈ parsed, pr.length = colnames.length ∧
      ∃ srow ∈ rows, srow.mapM parseCell = .ok pr := by
    intro pr hpr
    obtain ⟨srow, hsrow, hsm⟩ := mapM_ok_mem _ rows parsed hp pr hpr
    have := mapM_ok_length parseCell srow pr hsm
    rw [hwidth srow hsrow] at this
    exact ⟨this, srow, hsrow, hsm⟩
  refine ⟨?_, ?_, ?_, ?_, ?_⟩
  · rw [List.map_map]
    have he : (Prod.fst ∘ fun r : ℤ × List (Option ℚ) =>
        (r.1, keep.map (fun j => r.2.getD j none))) = Prod.fst := rfl
    rw [he]
    apply List.Pairwise.sublist (List.Sublist.map Prod.fst (List.filter_sublist _))
    rw [List.map_fst_zip timeindex parsed (by omega)]
    exact hasc
  · intro r hr
    obtain ⟨r0, hr0, hre⟩ := List.mem_map.mp hr
    have hfil := List.of_mem_filter hr0
    rw [List.any_eq_true] at hfil
    obtain ⟨v, hv, hvs⟩ := hfil
    obtain ⟨j, hj, hje⟩ := List.getElem_of_mem hv
    have hthis : r0.2.getD j none = v := by
      have h7 : r0.2[j]? = some v := by
        rw [List.getElem?_eq_getElem hj, hje]
      rw [List.getD_eq_getElem?_getD, h7]
      rfl
    have hjlen : j < colnames.length := by
      have h1 := (hprovrow r0.2 (List.of_mem_zip (by
        rw [show (r0.1, r0.2) = r0 from rfl]
        exact hrows1zip r0 hr0)).2).1
      omega
    have hjkeep : j ∈ keep := by
      rw [hkeep]
      apply List.mem_filter.mpr
      refine ⟨List.mem_range.mpr hjlen, ?_⟩
      rw [List.any_eq_true]
      refine ⟨r0, hr0, ?_⟩
      show (r0.2.getD j none).isSome = true
      rw [hthis]
      exact hvs
    refine ⟨v, ?_, hvs⟩
    rw [← hre]
    show v ∈ keep.map (fun j => r0.2.getD j none)
    rw [← hthis]
    exact List.mem_map.mpr ⟨j, hjkeep, rfl⟩
  · intro j hj
    have hj2 : j < keep.length := by simpa using hj
    have hjk : keep.getD j 0 ∈ keep := getD_mem keep j 0 hj2
    rw [hkeep] at hjk
    have hfil := List.of_mem_filter hjk
    rw [List.any_eq_true] at hfil
    obtain ⟨r0, hr0, hr0s⟩ := hfil
    refine ⟨(r0.1, keep.map (fun i => r0.2.getD i none)),
      List.mem_map.mpr ⟨r0, hr0, rfl⟩, ?_⟩
    have hthis : (keep.map (fun i => r0.2.getD i none)).getD j none =
        r0.2.getD (keep.getD j 0) none := by
      rw [List.getD_eq_getElem?_getD, List.getElem?_map,
        getElem?_eq_some_getD keep j 0 hj2]
      rfl
    show ((keep.map (fun i => r0.2.getD i none)).getD j none).isSome = true
    rw [hthis]
    exact hr0s
  · intro c hc
    obtain ⟨j, hj, hje⟩ := List.mem_map.mp hc
    have hje2 : colnames.getD j [] = c := hje
    rw [hkeep] at hj
    have hjr : j < colnames.length := by
      have h8 := (List.mem_filter.mp hj).1
      simpa using h8
    rw [← hje2]
    exact getD_mem colnames j [] hjr
  · intro r hr v hv
    obtain ⟨r0, hr0, hre⟩ := List.mem_map.mp hr
    rw [← hre] at hv
    have hv2 : v ∈ keep.map (fun j => r0.2.getD j none) := hv
    obtain ⟨j, hjk, hje⟩ := List.mem_map.mp hv2
    have hje2 : r0.2.getD j none = v := hje
    rw [hkeep] at hjk
    have hjr : j < colnames.length := by
      have h8 := (List.mem_filter.mp hjk).1
      simpa using h8
    have hr0p : r0.2 ∈ parsed := (List.of_mem_zip (by
      rw [show (r0.1, r0.2) = r0 from rfl]
      exact hrows1zip r0 hr0)).2
    obtain ⟨hr0len, srow, hsrow, hsm⟩ := hprovrow r0.2 hr0p
    have hjlt : j < r0.2.length := by omega
    have hvin : v ∈ r0.2 := by
      rw [← hje2]
      exact getD_mem r0.2 j none hjlt
    obtain ⟨cell, hcm, hcp⟩ := mapM_ok_mem parseCell srow r0.2 hsm v hvin
    exact ⟨cell, List.mem_flatten.mpr ⟨srow, hsrow, hcm⟩, hcp⟩

lemma flatten_map_drop_subset (g : Grid) (cut : Nat) (c : Cell)
    (hc : c ∈ ((g.drop cut).map (fun r => r.drop 1)).flatten) : c ∈ (g.drop cut).flatten := by
  rw [List.mem_flatten] at hc ⊢
  obtain ⟨l, hl, hcl⟩ := hc
  obtain ⟨r, hr, hre⟩ := List.mem_map.mp hl
  rw [← hre] at hcl
  exact ⟨r, hr, List.mem_of_mem_drop hcl⟩

lemma gridCols_flatten_subset (g : Grid) (m : Nat) (hw : ∀ r ∈ g, m ≤ r.length)
    (c : Cell) (hc : c ∈ (gridCols g m).flatten) : c ∈ g.flatten := by
  rw [List.mem_flatten] at hc ⊢
  obtain ⟨l, hl, hcl⟩ := hc
  unfold gridCols at hl
  obtain ⟨j, hj, hje⟩ := List.mem_map.mp hl
  rw [← hje] at hcl
  obtain ⟨r, hr, hre⟩ := List.mem_map.mp hcl
  refine ⟨r, hr, ?_⟩
  have hjm : j < m := List.mem_range.mp hj
  have hjl : j < r.length := lt_of_lt_of_le hjm (hw r hr)
  rw [← hre]
  exact getD_mem r j Cell.nan hjl

lemma enumMap_mem {α β : Type} (f : Nat → α → β) (l : List α) (b : β)
    (hb : b ∈ enumMap f l) : ∃ i a, a ∈ l ∧ b = f i a := by
  unfold enumMap at hb
  obtain ⟨p, hp, hpe⟩ := List.mem_map.mp hb
  refine ⟨p.1, p.2, ?_, hpe.symm⟩
  exact (List.of_mem_zip (by rw [show (p.1, p.2) = p from rfl]; exact hp)).2

lemma enumMap_length {α β : Type} (f : Nat → α → β) (l : List α) :
    (enumMap f l).length = l.length := by
  unfold enumMap
  rw [List.length_map, List.length_zip, List.length_range]
  omega

lemma g2_row_len (grid : Grid) (w cut : Nat) (hw : ∀ r ∈ grid, r.length = w) :
    ∀ r ∈ (grid.drop cut).map (fun r => r.drop 1), r.length = w - 1 := by
  intro r hr
  obtain ⟨r0, hr0, hre⟩ := List.mem_map.mp hr
  have hm : r0 ∈ grid := List.mem_of_mem_drop hr0
  rw [← hre, List.length_drop, hw r0 hm]

lemma ilocRow_mem (g : Grid) (i : Int) (r : List Cell) (h : ilocRow g i = .ok r) :
    r ∈ g := by
  unfold ilocRow at h
  by_cases hcond : 0 ≤ (if i < 0 then (g.length : Int) + i else i)
      ∧ (if i < 0 then (g.length : Int) + i else i) < (g.length : Int)
  · rw [if_pos hcond] at h
    injection h with h2
    rw [← h2]
    apply getD_mem
    omega
  · rw [if_neg hcond] at h
    exact Except.noConfusion h

/-- The YearMonth pipeline satisfies the tidiness invariant. -/
lemma readYearMonth_tidy (grid : Grid) (varName : List Char) (s : TidySeries)
    (hok : readYearMonthT grid varName = .ok s) :
    TidyInvariant .YearMonth grid varName (.series s) := by
  unfold readYearMonthT at hok
  simp only [except_bind_ok] at hok
  obtain ⟨h, hh, hok⟩ := hok
  cases hg1 : grid.drop (h + 1) with
  | nil =>
      rw [hg1] at hok
      exact Except.noConfusion hok
  | cons r0 rest =>
      rw [hg1] at hok
      simp only [except_bind_ok] at hok
      obtain ⟨r1, hr1, y, hy, htidy⟩ := hok
      obtain ⟨hname, hasc, hsome, hprov⟩ :=
        tidySeries_spec _ _ _ s (intRange_pairwise _ _) htidy
      refine ⟨hasc, hsome, hname, h, hh, ?_⟩
      intro r hr
      obtain ⟨cell, hcm, hcp⟩ := hprov r hr
      rw [← hg1] at hcm
      exact ⟨cell, flatten_map_drop_subset grid (h + 1) cell hcm, hcp⟩

/-- The MonthYear pipeline satisfies the tidiness invariant. -/
lemma readMonthYear_tidy (grid : Grid) (w : Nat) (varName : List Char) (s : TidySeries)
    (hw : ∀ r ∈ grid, r.length = w)
    (hok : readMonthYearT grid w varName = .ok s) :
    TidyInvariant .MonthYear grid varName (.series s) := by
  unfold readMonthYearT at hok
  simp only [except_bind_ok] at hok
  obtain ⟨h, hh, r1, hr1, hok⟩ := hok
  have main : ∀ (y : Nat),
      tidySeries ((gridCols ((grid.drop h).map (fun r => r.drop 1)) (w - 1)).flatten)
        (intRange (12 * (y : ℤ))
          ((gridCols ((grid.drop h).map (fun r => r.drop 1)) (w - 1)).flatten).length)
        (if varName.isEmpty then strOfCell ((grid.getD 0 []).getD 0 Cell.nan) else varName)
        = .ok s →
      TidyInvariant .MonthYear grid varName (.series s) := by
    intro y htidy
    obtain ⟨hname, hasc, hsome, hprov⟩ :=
      tidySeries_spec _ _ _ s (intRange_pairwise _ _) htidy
    refine ⟨hasc, hsome, hname, h, hh, ?_⟩
    intro r hr
    obtain ⟨cell, hcm, hcp⟩ := hprov r hr
    have hw2 : ∀ q ∈ (grid.drop h).map (fun r => r.drop 1), w - 1 ≤ q.length := by
      intro q hq
      exact le_of_eq (g2_row_len grid w h hw q hq).symm
    have hcell2 : cell ∈ ((grid.drop h).map (fun r => r.drop 1)).flatten :=
      gridCols_flatten_subset _ _ hw2 cell hcm
    exact ⟨cell, flatten_map_drop_subset grid h cell hcell2, hcp⟩
  split at hok
  · simp only [except_bind_ok] at hok
    obtain ⟨r2, hr2, yc, hyc, y, hy, htidy⟩ := hok
    exact main y htidy
  · simp only [except_bind_ok] at hok
    obtain ⟨yc, hyc, y, hy, htidy⟩ := hok
    exact main y htidy

/-- The IndicatorYear pipeline satisfies the tidiness invariant. -/
lemma readIndicatorYear_tidy (grid : Grid) (w : Nat) (varName : List Char) (f : TidyFrame)
    (hw : ∀ r ∈ grid, r.length = w)
    (hok : readIndicatorYearT grid w varName = .ok f) :
    TidyInvariant .IndicatorYear grid varName (.frame f) := by
  unfold readIndicatorYearT at hok
  simp only [except_bind_ok] at hok
  obtain ⟨h, hh, y, hy, inds, hinds, htidy⟩ := hok
  have hlen : inds.length = (grid.drop (h + 1)).length := mapM_ok_length _ _ _ hinds
  have hwidth : ∀ q ∈ gridCols ((grid.drop (h + 1)).map (fun r => r.drop 1)) (w - 1),
      q.length = (inds.map (fun v => varName ++ v)).length := by
    intro q hq
    unfold gridCols at hq
    obtain ⟨j, hj, hje⟩ := List.mem_map.mp hq
    rw [← hje]
    simp only [List.length_map]
    exact hlen.symm
  obtain ⟨hasc, hrow, hcol, hnames, hprov⟩ :=
    tidyFrame_spec _ _ _ f (intRange_pairwise _ _) hwidth htidy
  refine ⟨hasc, hrow, hcol, ?_, h, hh, ?_⟩
  · intro c hc
    obtain ⟨v, hv, hve⟩ := List.mem_map.mp (hnames c hc)
    exact ⟨v, hve.symm⟩
  · intro r hr v hv
    obtain ⟨cell, hcm, hcp⟩ := hprov r hr v hv
    have hw2 : ∀ q ∈ (grid.drop (h + 1)).map (fun r => r.drop 1), w - 1 ≤ q.length := by
      intro q hq
      exact le_of_eq (g2_row_len grid w (h + 1) hw q hq).symm
    have hcell2 : cell ∈ ((grid.drop (h + 1)).map (fun r => r.drop 1)).flatten :=
      gridCols_flatten_subset _ _ hw2 cell hcm
    exact ⟨cell, flatten_map_drop_subset grid (h + 1) cell hcell2, hcp⟩

/-- The IndicatorQuarter pipeline satisfies the tidiness invariant. -/
lemma readIndicatorQuarter_tidy (grid : Grid) (w : Nat) (varName : List Char) (f : TidyFrame)
    (hw : ∀ r ∈ grid, r.length = w)
    (hok : readIndicatorQuarterT grid w varName = .ok f) :
    TidyInvariant .IndicatorQuarter grid varName (.frame f) := by
  unfold readIndicatorQuarterT at hok
  simp only [except_bind_ok] at hok
  obtain ⟨h, hh, t0, ht0, inds, hinds, htidy⟩ := hok
  have hlen : inds.length = (grid.drop (h + 1)).length := mapM_ok_length _ _ _ hinds
  have hwidth : ∀ q ∈ gridCols ((grid.drop (h + 1)).map (fun r => r.drop 1)) (w - 1),
      q.length = (inds.map (fun v => varName ++ v)).length := by
    intro q hq
    unfold gridCols at hq
    obtain ⟨j, hj, hje⟩ := List.mem_map.mp hq
    rw [← hje]
    simp only [List.length_map]
    exact hlen.symm
  obtain ⟨hasc, hrow, hcol, hnames, hprov⟩ :=
    tidyFrame_spec _ _ _ f (intRange_pairwise _ _) hwidth htidy
  refine ⟨hasc, hrow, hcol, ?_, h, hh, ?_⟩
  · intro c hc
    obtain ⟨v, hv, hve⟩ := List.mem_map.mp (hnames c hc)
    exact ⟨v, hve.symm⟩
  · intro r hr v hv
    obtain ⟨cell, hcm, hcp⟩ := hprov r hr v hv
    have hw2 : ∀ q ∈ (grid.drop (h + 1)).map (fun r => r.drop 1), w - 1 ≤ q.length := by
      intro q hq
      exact le_of_eq (g2_row_len grid w (h + 1) hw q hq).symm
    have hcell2 : cell ∈ ((grid.drop (h + 1)).map (fun r => r.drop 1)).flatten :=
      gridCols_flatten_subset _ _ hw2 cell hcm
    exact ⟨cell, flatten_map_drop_subset grid (h + 1) cell hcell2, hcp⟩

/-- The QuarterIndicator pipeline satisfies the tidiness invariant. -/
lemma readQuarterIndicator_tidy (grid : Grid) (w : Nat) (varName : List Char) (f : TidyFrame)
    (hw : ∀ r ∈ grid, r.length = w)
    (hok : readQuarterIndicatorT grid varName = .ok f) :
    TidyInvariant .QuarterIndicator grid varName (.frame f) := by
  unfold readQuarterIndicatorT at hok
  simp only [except_bind_ok] at hok
  obtain ⟨h, hh, t0, ht0, r1, hr1, inds, hinds, htidy⟩ := hok
  have hr1mem : r1 ∈ grid := ilocRow_mem grid _ r1 hr1
  have hr1len : r1.length = w := hw r1 hr1mem
  have hlen : inds.length = (r1.drop 1).length := mapM_ok_length _ _ _ hinds
  have hwidth : ∀ q ∈ (grid.drop h).map (fun r => r.drop 1),
      q.length = (inds.map (fun v => varName ++ v)).length := by
    intro q hq
    rw [g2_row_len grid w h hw q hq, List.length_map, hlen, List.length_drop, hr1len]
  obtain ⟨hasc, hrow, hcol, hnames, hprov⟩ :=
    tidyFrame_spec _ _ _ f (intRange_pairwise _ _) hwidth htidy
  refine ⟨hasc, hrow, hcol, ?_, h, hh, ?_⟩
  · intro c hc
    obtain ⟨v, hv, hve⟩ := List.mem_map.mp (hnames c hc)
    exact ⟨v, hve.symm⟩
  · intro r hr v hv
    obtain ⟨cell, hcm, hcp⟩ := hprov r hr v hv
    exact ⟨cell, flatten_map_drop_subset grid h cell hcm, hcp⟩

lemma mark59_rows (y : Nat) (g2 : Grid) :
    ∀ r3 ∈ enumMap (fun i row =>
        if i = 59 then
          enumMap (fun j c =>
            if is_leap_year (y + j) then c else Cell.str "DELETE ME".data) row
        else row) g2,
      ∃ row ∈ g2, r3.length = row.length
        ∧ ∀ c ∈ r3, c = Cell.str "DELETE ME".data ∨ c ∈ row := by
  intro r3 h3
  obtain ⟨i, row, hrow, hre⟩ := enumMap_mem _ _ _ h3
  refine ⟨row, hrow, ?_, ?_⟩
  · rw [hre]
    by_cases hi : i = 59
    · rw [if_pos hi, enumMap_length]
    · rw [if_neg hi]
  · intro c hc
    rw [hre] at hc
    by_cases hi : i = 59
    · rw [if_pos hi] at hc
      obtain ⟨j, a, ha, hce⟩ := enumMap_mem _ _ _ hc
      by_cases hl : is_leap_year (y + j) = true
      · right
        rw [hce, if_pos hl]
        exact ha
      · left
        rw [hce, if_neg hl]
    · rw [if_neg hi] at hc
      right
      exact hc

/-- The DayYear pipeline satisfies the tidiness invariant. -/
lemma readDayYear_tidy (grid : Grid) (w : Nat) (varName : List Char) (s : TidySeries)
    (hw : ∀ r ∈ grid, r.length = w)
    (hok : readDayYearT grid w varName = .ok s) :
    TidyInvariant .DayYear grid varName (.series s) := by
  unfold readDayYearT at hok
  simp only [except_bind_ok] at hok
  obtain ⟨h, hh, r1, hr1, y, hy, hok⟩ := hok
  split at hok
  case isFalse =>
    exact Except.noConfusion hok
  case isTrue hlen =>
    obtain ⟨hname, hasc, hsome, hprov⟩ :=
      tidySeries_spec _ _ _ s (intRange_pairwise _ _) hok
    refine ⟨hasc, hsome, hname, h, hh, ?_⟩
    intro r hr
    obtain ⟨cell, hcm, hcp⟩ := hprov r hr
    have hcm1 := List.mem_of_mem_filter hcm
    have hne : ¬ cell = Cell.str "DELETE ME".data := by
      have hf := List.of_mem_filter hcm
      exact of_decide_eq_true hf
    have hw3 : ∀ q ∈ enumMap (fun i row =>
        if i = 59 then
          enumMap (fun j c =>
            if is_leap_year (y + j) then c else Cell.str "DELETE ME".data) row
        else row) ((grid.drop h).map (fun r => r.drop 1)),
        w - 1 ≤ q.length := by
      intro q hq
      obtain ⟨row, hrowm, hlq, _⟩ := mark59_rows y _ q hq
      rw [hlq, g2_row_len grid w h hw row hrowm]
    have hcell3 := gridCols_flatten_subset _ _ hw3 cell hcm1
    rw [List.mem_flatten] at hcell3
    obtain ⟨r3, hr3, hcr3⟩ := hcell3
    obtain ⟨row, hrowm, _, hsub⟩ := mark59_rows y _ r3 hr3
    rcases hsub cell hcr3 with hdel | hmem2
    · exact absurd hdel hne
    · have hcell2 : cell ∈ ((grid.drop h).map (fun r => r.drop 1)).flatten :=
        List.mem_flatten.mpr ⟨row, hrowm, hmem2⟩
      exact ⟨cell, flatten_map_drop_subset grid h cell hcell2, hcp⟩

/-- C1: for every supported chart format, the series or table returned by the
chart-parsing layer (the per-format read pipelines dispatched by `READMETHODS`,
all ending in `utils.tidy`) on a raw scraped grid of uniform width is
time-indexed with strictly ascending (hence unique) timestamps, carries the
requested (or title-derived) series/column names, contains none of the source
table's header/footer content (every surviving value parses out of a cell
strictly below the located header row), and has all-missing rows and columns
dropped. -/
theorem readMethods_tidy (fmt : ChartFormat) (grid : Grid) (w : Nat)
    (varName : List Char) (out : TidyOut)
    (hw : ∀ r ∈ grid, r.length = w)
    (hok : readMethod fmt grid w varName = .ok out) :
    TidyInvariant fmt grid varName out := by
  cases fmt with
  | YearMonth =>
      simp only [readMethod] at hok
      rw [except_map_ok] at hok
      obtain ⟨a, ha, hae⟩ := hok
      rw [← hae]
      exact readYearMonth_tidy grid varName a ha
  | MonthYear =>
      simp only [readMethod] at hok
      rw [except_map_ok] at hok
      obtain ⟨a, ha, hae⟩ := hok
      rw [← hae]
      exact readMonthYear_tidy grid w varName a hw ha
  | IndicatorYear =>
      simp only [readMethod] at hok
      rw [except_map_ok] at hok
      obtain ⟨a, ha, hae⟩ := hok
      rw [← hae]
      exact readIndicatorYear_tidy grid w varName a hw ha
  | IndicatorQuarter =>
      simp only [readMethod] at hok
      rw [except_map_ok] at hok
      obtain ⟨a, ha, hae⟩ := hok
      rw [← hae]
      exact readIndicatorQuarter_tidy grid w varName a hw ha
  | QuarterIndicator =>
      simp only [readMethod] at hok
      rw [except_map_ok] at hok
      obtain ⟨a, ha, hae⟩ := hok
      rw [← hae]
      exact readQuarterIndicator_tidy grid w varName a hw ha
  | DayYear =>
      simp only [readMethod] at hok
      rw [except_map_ok] at hok
      obtain ⟨a, ha, hae⟩ := hok
      rw [← hae]
      exact readDayYear_tidy grid w varName a hw ha

/-- A concrete quarter-by-indicator chart: a title row, an indicator-label
row, and one data row. -/
def gridW : Grid :=
  [[Cell.str "Titulo".data, Cell.nan],
   [Cell.str "".data, Cell.str "Ind1".data],
   [Cell.str "trimestre 1/2000".data, Cell.num 5]]

/-- Its tidy output: one column `XInd1`, one row at quarter ordinal 8000
(2000-Q1) with value 5. -/
def outW : TidyOut :=
  .frame ⟨["XInd1".data], [((8000 : ℤ), [some (5 : ℚ)])]⟩

/-- C1 witness: the invariant instantiated on the concrete chart. -/
theorem readMethods_tidy_witness :
    (∀ r ∈ gridW, r.length = 2)
    ∧ readMethod .QuarterIndicator gridW 2 "X".data = .ok outW
    ∧ TidyInvariant .QuarterIndicator gridW "X".data outW :=
  ⟨by decide, by decide,
   readMethods_tidy .QuarterIndicator gridW 2 "X".data outW (by decide) (by decide)⟩

end BCCR
